import Mathlib

/-!
Verification of the eBird notable-sightings scraper (src/scraper.py).

The program is shallowly embedded: JSON values are modelled by the mutual
inductive family `JValue`/`JArr`/`JObj` (numbers are modelled as integers;
the program only ever produces or consumes integral counts, and no claim
depends on float-valued fields beyond passing them through verbatim).
Python dictionaries are modelled as `JObj` association lists; `dict.get`
with a default is `pyGet`; Python truthiness of JSON values is `pyTruthy`.
The HTTP layer (the `requests` library) is modelled by an oracle
`HttpRequest → HttpResponse`, and `Response.raise_for_status` follows the
documented behaviour of `requests` (an `HTTPError` is raised exactly for
4xx and 5xx status codes, with the message `"{code} Client Error: {reason}
for url: {url}"` resp. `"Server Error"`).  `json.dump(..., indent=2)` and
`json.load`/`json.loads` (Python standard library) are modelled by
`dumpV` (with `ensure_ascii` escaping) and the fuel-indexed `parseVal`.
-/

set_option maxRecDepth 40000

mutual

inductive JValue where
  | null : JValue
  | bool (b : Bool) : JValue
  | num (n : Int) : JValue
  | str (s : String) : JValue
  | arr (elems : JArr) : JValue
  | obj (fields : JObj) : JValue
  deriving DecidableEq

inductive JArr where
  | nil : JArr
  | cons (v : JValue) (rest : JArr) : JArr
  deriving DecidableEq

inductive JObj where
  | nil : JObj
  | cons (k : String) (v : JValue) (rest : JObj) : JObj
  deriving DecidableEq

end

/-- Lookup in a Python dict built from an association list.  When a key is
bound several times the *last* binding wins, matching the way CPython's
`dict` is populated (later assignments overwrite earlier ones). -/
def JObj.get? : JObj → String → Option JValue
  | .nil, _ => none
  | .cons k v rest, key =>
    match JObj.get? rest key with
    | some r => some r
    | none => if k = key then some v else none

/-- The keys of a dict, in insertion order. -/
def JObj.keys : JObj → List String
  | .nil => []
  | .cons k _ rest => k :: JObj.keys rest

def jarrToList : JArr → List JValue
  | .nil => []
  | .cons v rest => v :: jarrToList rest

def listToJArr : List JValue → JArr
  | [] => .nil
  | v :: rest => .cons v (listToJArr rest)

/-- Python `obs.get(k, default)`. -/
def pyGet (obs : JObj) (k : String) (default : JValue) : JValue :=
  (obs.get? k).getD default

/-- Python truthiness of a JSON value (`None`, `""`, `0`, `False`, `[]`,
and the empty dict are falsy; everything else is truthy). -/
def pyTruthy : JValue → Bool
  | .null => false
  | .bool b => b
  | .num n => n != 0
  | .str s => s != ""
  | .arr .nil => false
  | .arr (.cons _ _) => true
  | .obj .nil => false
  | .obj (.cons _ _ _) => true

/-- Decimal digit to character. -/
def toDigitChar (n : Nat) : Char := Char.ofNat (48 + n)

def natToCharsF : Nat → Nat → List Char
  | 0, _ => []
  | fuel + 1, n =>
    if n < 10 then [toDigitChar n]
    else natToCharsF fuel (n / 10) ++ [toDigitChar (n % 10)]

/-- Decimal representation of a natural number (as `str`/`repr` in Python). -/
def natToChars (n : Nat) : List Char := natToCharsF (n + 1) n

def natToString (n : Nat) : String := String.mk (natToChars n)

/-- Decimal representation of an integer, as Python `str(i)`. -/
def intToChars (i : Int) : List Char :=
  if i < 0 then '-' :: natToChars i.natAbs else natToChars i.natAbs

def intToString (i : Int) : String := String.mk (intToChars i)

mutual

/-- Python `repr` of a JSON value, used by `str()` on lists and dicts.
Scalar cases are exact; for strings the quoting is simplified (always
single quotes, no escaping).  No behaviour examined by a claim reaches the
container or string cases: the program only ever applies `str()` to
scalar-valued fields, and every claim that touches an interpolated field
constrains it to be a string, `null`, or absent. -/
def pyReprV : JValue → String
  | .null => "None"
  | .bool true => "True"
  | .bool false => "False"
  | .num n => intToString n
  | .str s => "\x27" ++ s ++ "\x27"
  | .arr a => "[" ++ pyReprItems a ++ "]"
  | .obj o => "\x7b" ++ pyReprMembers o ++ "\x7d"

def pyReprItems : JArr → String
  | .nil => ""
  | .cons v .nil => pyReprV v
  | .cons v rest => pyReprV v ++ ", " ++ pyReprItems rest

def pyReprMembers : JObj → String
  | .nil => ""
  | .cons k v .nil => "\x27" ++ k ++ "\x27: " ++ pyReprV v
  | .cons k v rest => "\x27" ++ k ++ "\x27: " ++ pyReprV v ++ ", " ++ pyReprMembers rest

end

/-- Python `str()` of a JSON value, as applied by f-string interpolation. -/
def pyStr : JValue → String
  | .null => "None"
  | .bool true => "True"
  | .bool false => "False"
  | .num n => intToString n
  | .str s => s
  | .arr a => pyReprV (.arr a)
  | .obj o => pyReprV (.obj o)

/-- `format_observation` (src/scraper.py lines 41-57): format a single raw
observation dict for display.  Every `obs.get` and both conditional URL
derivations are transcribed directly from the source. -/
def format_observation (obs : JObj) : JObj :=
  .cons "species" (pyGet obs "comName" (.str "Unknown")) (
  .cons "scientific_name" (pyGet obs "sciName" (.str "")) (
  .cons "count" (pyGet obs "howMany" (.str "X")) (
  .cons "location" (pyGet obs "locName" (.str "Unknown location")) (
  .cons "date" (pyGet obs "obsDt" (.str "")) (
  .cons "lat" (pyGet obs "lat" .null) (
  .cons "lng" (pyGet obs "lng" .null) (
  .cons "checklist_url"
    (if pyTruthy (pyGet obs "subId" .null) then
      .str ("https://ebird.org/checklist/" ++ pyStr (pyGet obs "subId" (.str "")))
    else .null) (
  .cons "species_url"
    (if pyTruthy (pyGet obs "speciesCode" .null) then
      .str ("https://ebird.org/species/" ++ pyStr (pyGet obs "speciesCode" (.str "")))
    else .null) (
  .cons "location_id" (pyGet obs "locId" (.str "")) (
  .cons "observer" (pyGet obs "userDisplayName" (.str "")) (
  .cons "is_valid" (pyGet obs "obsValid" (.bool true)) (
  .cons "is_reviewed" (pyGet obs "obsReviewed" (.bool false)) .nil))))))))))))

/-! ## HTTP layer (the `requests` library, modelled by an oracle) -/

/-- A GET request as issued by `fetch_notable_observations`: the endpoint
URL, the `X-eBirdApiToken` header, and the three query parameters. -/
structure HttpRequest where
  url : String
  apiToken : String
  back : JValue
  maxResults : JValue
  detail : String
  deriving DecidableEq

/-- The response the network oracle returns: status code, reason phrase,
final URL and raw body text. -/
structure HttpResponse where
  status : Nat
  reason : String
  respUrl : String
  body : String
  deriving DecidableEq

/-- `Response.raise_for_status` from `requests`: returns the message of the
`HTTPError` it raises, or `none` when it does not raise.  It raises exactly
for status codes 400-499 (`Client Error`) and 500-599 (`Server Error`). -/
def raise_for_status (r : HttpResponse) : Option String :=
  if 400 ≤ r.status ∧ r.status < 500 then
    some (natToString r.status ++ " Client Error: " ++ r.reason ++ " for url: " ++ r.respUrl)
  else if 500 ≤ r.status ∧ r.status < 600 then
    some (natToString r.status ++ " Server Error: " ++ r.reason ++ " for url: " ++ r.respUrl)
  else none

/-- Outcome of one call to `fetch_notable_observations`:
`ok` — 200-level (or other non-raising) response with a JSON body;
`httpError` — `raise_for_status` raised `requests.exceptions.HTTPError`;
`crash` — the body was not valid JSON, so `response.json()` raised an
exception that `main` does not catch (fatal). -/
inductive FetchOutcome where
  | ok (body : JValue)
  | httpError (msg : String)
  | crash
  deriving DecidableEq

/-! ## `json.dump(..., indent=2)` (Python standard library, `ensure_ascii`) -/

/-- Lowercase hexadecimal digit, as `"%04x"` formatting uses. -/
def hexDigitChar (n : Nat) : Char :=
  if n < 10 then Char.ofNat (48 + n) else Char.ofNat (87 + n)

/-- Four lowercase hex digits of `n < 0x10000`, as in a `\uXXXX` escape. -/
def hex4 (n : Nat) : List Char :=
  [hexDigitChar (n / 4096 % 16), hexDigitChar (n / 256 % 16),
   hexDigitChar (n / 16 % 16), hexDigitChar (n % 16)]

/-- How `json.dump` with `ensure_ascii=True` (the default, used by the
program) renders one character inside a string literal: `"` and `\`
escaped, the five control characters with short escapes, other control
characters and everything above `0x7e` as `\uXXXX` (astral characters as a
surrogate pair). -/
def escChar (c : Char) : List Char :=
  if c = '"' then ['\\', '"']
  else if c = '\\' then ['\\', '\\']
  else if c = '\n' then ['\\', 'n']
  else if c = '\r' then ['\\', 'r']
  else if c = '\t' then ['\\', 't']
  else if c.toNat = 8 then ['\\', 'b']
  else if c.toNat = 12 then ['\\', 'f']
  else if c.toNat < 32 then '\\' :: 'u' :: hex4 c.toNat
  else if c.toNat ≤ 126 then [c]
  else if c.toNat ≤ 65535 then '\\' :: 'u' :: hex4 c.toNat
  else '\\' :: 'u' :: hex4 (55296 + (c.toNat - 65536) / 1024) ++
       '\\' :: 'u' :: hex4 (56320 + (c.toNat - 65536) % 1024)

def escChars : List Char → List Char
  | [] => []
  | c :: cs => escChar c ++ escChars cs

/-- A JSON string literal with its quotes. -/
def dumpStr (s : String) : List Char := '"' :: escChars s.data ++ ['"']

/-- The newline-plus-indent that `indent=2` puts before each element. -/
def nlIndent (n : Nat) : List Char := '\n' :: List.replicate n ' '

mutual

/-- `json.dump(v, f, indent=2)`: the exact character stream Python writes
for a value at indentation level `ind`. -/
def dumpV : JValue → Nat → List Char
  | .null, _ => ['n', 'u', 'l', 'l']
  | .bool true, _ => ['t', 'r', 'u', 'e']
  | .bool false, _ => ['f', 'a', 'l', 's', 'e']
  | .num n, _ => intToChars n
  | .str s, _ => dumpStr s
  | .arr .nil, _ => ['[', ']']
  | .arr (.cons v rest), ind =>
      '[' :: nlIndent (ind + 2) ++ dumpV v (ind + 2) ++ dumpItems rest (ind + 2) ++
        nlIndent ind ++ [']']
  | .obj .nil, _ => ['\x7b', '\x7d']
  | .obj (.cons k v rest), ind =>
      '\x7b' :: nlIndent (ind + 2) ++ dumpStr k ++ ':' :: ' ' :: dumpV v (ind + 2) ++
        dumpMembers rest (ind + 2) ++ nlIndent ind ++ ['\x7d']

/-- The remaining elements of a non-empty array: `","`, newline, indent,
element, recursively. -/
def dumpItems : JArr → Nat → List Char
  | .nil, _ => []
  | .cons v rest, ind => ',' :: nlIndent ind ++ dumpV v ind ++ dumpItems rest ind

/-- The remaining members of a non-empty object. -/
def dumpMembers : JObj → Nat → List Char
  | .nil, _ => []
  | .cons k v rest, ind =>
      ',' :: nlIndent ind ++ dumpStr k ++ ':' :: ' ' :: dumpV v ind ++ dumpMembers rest ind

end

/-! ## `json.load`/`json.loads` (Python standard library)

The parser is fuel-indexed so that every definition is structurally
recursive (and hence evaluates inside the kernel).  Objects parse to the
association list of their members in textual order; looking a key up with
`JObj.get?` takes the last binding, matching the dict `json.loads`
builds.  Numbers are restricted to integers, the only numbers this
program's output contains, and a lone surrogate `\uXXXX` escape is
rejected (CPython would produce a string Unicode scalars cannot
represent). -/

def isWsChar (c : Char) : Bool :=
  c = ' ' || c = '\t' || c = '\n' || c = '\r'

def skipWs : List Char → List Char
  | [] => []
  | c :: cs => if isWsChar c then skipWs cs else c :: cs

def fromHexDigit (c : Char) : Option Nat :=
  if 48 ≤ c.toNat ∧ c.toNat ≤ 57 then some (c.toNat - 48)
  else if 97 ≤ c.toNat ∧ c.toNat ≤ 102 then some (c.toNat - 87)
  else if 65 ≤ c.toNat ∧ c.toNat ≤ 70 then some (c.toNat - 55)
  else none

def readHex4 : List Char → Option (Nat × List Char)
  | a :: b :: c :: d :: rest =>
    match fromHexDigit a, fromHexDigit b, fromHexDigit c, fromHexDigit d with
    | some x, some y, some z, some w => some (x * 4096 + y * 256 + z * 16 + w, rest)
    | _, _, _, _ => none
  | _ => none

/-- After a high surrogate `\uXXXX`, the mandatory low-surrogate escape
`\uYYYY`; `n` is the high surrogate's value. -/
def parseLowSur (n : Nat) : List Char → Option (Char × List Char)
  | c1 :: c2 :: rest2 =>
    if c1 = '\\' then
      if c2 = 'u' then
        match readHex4 rest2 with
        | some (m, rest3) =>
          if 56320 ≤ m ∧ m ≤ 57343 then
            some (Char.ofNat (65536 + (n - 55296) * 1024 + (m - 56320)), rest3)
          else none
        | none => none
      else none
    else none
  | _ => none

/-- The four hex digits of a `\u` escape, with surrogate-pair handling. -/
def parseUEsc (cs : List Char) : Option (Char × List Char) :=
  match readHex4 cs with
  | none => none
  | some (n, rest1) =>
    if 55296 ≤ n ∧ n ≤ 56319 then parseLowSur n rest1
    else if 56320 ≤ n ∧ n ≤ 57343 then none
    else some (Char.ofNat n, rest1)

/-- One escape sequence, after the backslash has been consumed. -/
def parseEsc : List Char → Option (Char × List Char)
  | [] => none
  | c :: rest =>
    if c = '"' then some ('"', rest)
    else if c = '\\' then some ('\\', rest)
    else if c = '/' then some ('/', rest)
    else if c = 'b' then some (Char.ofNat 8, rest)
    else if c = 'f' then some (Char.ofNat 12, rest)
    else if c = 'n' then some ('\n', rest)
    else if c = 'r' then some ('\r', rest)
    else if c = 't' then some ('\t', rest)
    else if c = 'u' then parseUEsc rest
    else none

/-- The characters of a string literal, after the opening quote; stops at
the closing quote.  Unescaped control characters are rejected (`strict`
mode, the default). -/
def parseStrChars : Nat → List Char → Option (List Char × List Char)
  | 0, _ => none
  | fuel + 1, cs =>
    match cs with
    | [] => none
    | c :: rest =>
      if c = '"' then some ([], rest)
      else if c = '\\' then
        match parseEsc rest with
        | none => none
        | some (e, rest1) =>
          match parseStrChars fuel rest1 with
          | none => none
          | some (s, rest2) => some (e :: s, rest2)
      else if 32 ≤ c.toNat then
        match parseStrChars fuel rest with
        | none => none
        | some (s, rest2) => some (c :: s, rest2)
      else none

def parseDigitsAux : Nat → List Char → Nat × List Char
  | acc, [] => (acc, [])
  | acc, c :: cs =>
    if 48 ≤ c.toNat ∧ c.toNat ≤ 57 then parseDigitsAux (acc * 10 + (c.toNat - 48)) cs
    else (acc, c :: cs)

def parseNat : List Char → Option (Nat × List Char)
  | [] => none
  | c :: cs =>
    if 48 ≤ c.toNat ∧ c.toNat ≤ 57 then some (parseDigitsAux (c.toNat - 48) cs)
    else none

/-- An integer literal (optional minus sign, then digits). -/
def parseIntVal : List Char → Option (JValue × List Char)
  | [] => none
  | c :: cs =>
    if c = '-' then (parseNat cs).map (fun p => (.num (-(p.1 : Int)), p.2))
    else (parseNat (c :: cs)).map (fun p => (.num ((p.1 : Int)), p.2))

/-- The tail of the literal `null`, after its first character. -/
def parseNullTail : List Char → Option (JValue × List Char)
  | c1 :: c2 :: c3 :: rest1 =>
    if c1 = 'u' then if c2 = 'l' then if c3 = 'l' then some (.null, rest1)
    else none else none else none
  | _ => none

/-- The tail of the literal `true`, after its first character. -/
def parseTrueTail : List Char → Option (JValue × List Char)
  | c1 :: c2 :: c3 :: rest1 =>
    if c1 = 'r' then if c2 = 'u' then if c3 = 'e' then some (.bool true, rest1)
    else none else none else none
  | _ => none

/-- The tail of the literal `false`, after its first character. -/
def parseFalseTail : List Char → Option (JValue × List Char)
  | c1 :: c2 :: c3 :: c4 :: rest1 =>
    if c1 = 'a' then if c2 = 'l' then if c3 = 's' then if c4 = 'e' then
      some (.bool false, rest1)
    else none else none else none else none
  | _ => none

/-- A string value, after the opening quote. -/
def parseStrVal (cs : List Char) : Option (JValue × List Char) :=
  match parseStrChars (cs.length + 1) cs with
  | some (s, rest1) => some (.str (String.mk s), rest1)
  | none => none

/-- An array, after the opening bracket and whitespace; `pItems` parses
the elements of a non-empty array. -/
def parseArrBody (pItems : List Char → Option (JArr × List Char))
    (cs : List Char) : Option (JValue × List Char) :=
  match cs with
  | [] => none
  | c1 :: rest1 =>
    if c1 = ']' then some (.arr .nil, rest1)
    else
      match pItems (c1 :: rest1) with
      | some (a, rest2) => some (.arr a, rest2)
      | none => none

/-- An object, after the opening brace and whitespace; `pMembers` parses
the members of a non-empty object. -/
def parseObjBody (pMembers : List Char → Option (JObj × List Char))
    (cs : List Char) : Option (JValue × List Char) :=
  match cs with
  | [] => none
  | c1 :: rest1 =>
    if c1 = '\x7d' then some (.obj .nil, rest1)
    else
      match pMembers (c1 :: rest1) with
      | some (o, rest2) => some (.obj o, rest2)
      | none => none

mutual

/-- One JSON value, preceded by optional whitespace. -/
def parseVal : Nat → List Char → Option (JValue × List Char)
  | 0, _ => none
  | fuel + 1, cs =>
    match skipWs cs with
    | [] => none
    | c :: rest =>
      if c = 'n' then parseNullTail rest
      else if c = 't' then parseTrueTail rest
      else if c = 'f' then parseFalseTail rest
      else if c = '"' then parseStrVal rest
      else if c = '[' then parseArrBody (parseItems fuel) (skipWs rest)
      else if c = '\x7b' then parseObjBody (parseMembers fuel) (skipWs rest)
      else parseIntVal (c :: rest)

/-- The elements of a non-empty array, starting at the first element. -/
def parseItems : Nat → List Char → Option (JArr × List Char)
  | 0, _ => none
  | fuel + 1, cs =>
    match parseVal fuel cs with
    | none => none
    | some (v, rest) =>
      match skipWs rest with
      | [] => none
      | c :: rest1 =>
        if c = ']' then some (.cons v .nil, rest1)
        else if c = ',' then
          match parseItems fuel rest1 with
          | some (a, rest2) => some (.cons v a, rest2)
          | none => none
        else none

/-- The members of a non-empty object, starting at the quote of the first
key (whitespace already skipped). -/
def parseMembers : Nat → List Char → Option (JObj × List Char)
  | 0, _ => none
  | fuel + 1, cs =>
    match cs with
    | [] => none
    | c :: rest =>
      if c = '"' then
        match parseStrChars (rest.length + 1) rest with
        | none => none
        | some (k, rest1) =>
          match skipWs rest1 with
          | [] => none
          | c1 :: rest2 =>
            if c1 = ':' then
              match parseVal fuel rest2 with
              | none => none
              | some (v, rest3) =>
                match skipWs rest3 with
                | [] => none
                | c2 :: rest4 =>
                  if c2 = '\x7d' then some (.cons (String.mk k) v .nil, rest4)
                  else if c2 = ',' then
                    match parseMembers fuel (skipWs rest4) with
                    | some (o, rest5) => some (.cons (String.mk k) v o, rest5)
                    | none => none
                  else none
            else none
      else none

end

/-- `json.loads` on a whole document: one value, with nothing but
whitespace after it. -/
def parseJson (s : String) : Option JValue :=
  match parseVal (s.data.length + 1) s.data with
  | some (v, rest) => if skipWs rest = [] then some v else none
  | none => none

/-! ## The pipeline: `load_config`, the fetcher, and `main` -/

/-- `load_config` (src/scraper.py lines 14-18): parse the text of
`config.json`.  `none` models the uncaught exception (missing or malformed
file) that aborts the process.  Nothing else happens here: the parsed
document is returned as-is. -/
def load_config (configText : String) : Option JValue := parseJson configText

/-- A configured region, `{code, name}`.  The configuration descriptor
declares both as strings; region entries whose `code` or `name` is not a
string are outside the model (CPython would stringify them on output). -/
structure Region where
  code : String
  name : String
  deriving DecidableEq

/-- `config["regions"]`, reading `region["code"]` and `region["name"]` of
every element; `none` models the uncaught `KeyError`/`TypeError` that a
missing or ill-shaped `regions` entry raises. -/
def regionOfJson : JValue → Option Region
  | .obj fields =>
    match fields.get? "code", fields.get? "name" with
    | some (.str c), some (.str n) => some ⟨c, n⟩
    | _, _ => none
  | _ => none

def extractRegions : JValue → Option (List Region)
  | .obj fields =>
    match JObj.get? fields "regions" with
    | some (.arr items) => (jarrToList items).mapM regionOfJson
    | _ => none
  | _ => none

/-- `config.get(key, default)` as used in `main` for `days_back` and
`max_results` (only reached once the configuration is known to be a
dict). -/
def jGetD (cfg : JValue) (k : String) (d : JValue) : JValue :=
  match cfg with
  | .obj fields => (JObj.get? fields k).getD d
  | _ => d

/-- The request `fetch_notable_observations` issues for a region code. -/
def mkRequest (api_key region_code : String) (days_back max_results : JValue) : HttpRequest :=
  ⟨"https://api.ebird.org/v2/data/obs/" ++ region_code ++ "/recent/notable",
   api_key, days_back, max_results, "full"⟩

/-- `fetch_notable_observations` (src/scraper.py lines 21-38): build the
request, send it, `raise_for_status`, then `response.json()`. -/
def fetch_notable_observations (http : HttpRequest → HttpResponse)
    (api_key region_code : String) (days_back max_results : JValue) : FetchOutcome :=
  let response := http (mkRequest api_key region_code days_back max_results)
  match raise_for_status response with
  | some msg => .httpError msg
  | none =>
    match parseJson response.body with
    | some v => .ok v
    | none => .crash

/-- One `RegionResult` as `main` accumulates them: the `error` key exists
only in the entry built in the `except` branch, so it is an `Option`
that `regionEntryToJson` below serializes by omitting the key. -/
structure RegionEntry where
  code : String
  name : String
  observations : List JObj
  error : Option String
  deriving DecidableEq

def asJObj : JValue → Option JObj
  | .obj o => some o
  | _ => none

/-- The body of `main`'s per-region loop (src/scraper.py lines 295-318):
fetch; on `HTTPError` record an entry with empty observations and the
error string; on success format every element of the returned array.
`none` models the uncaught exception when the response is not an array of
objects (`format_observation` would crash) or not JSON at all. -/
def processRegion (http : HttpRequest → HttpResponse) (api_key : String)
    (days_back max_results : JValue) (r : Region) : Option RegionEntry :=
  match fetch_notable_observations http api_key r.code days_back max_results with
  | .httpError msg => some ⟨r.code, r.name, [], some msg⟩
  | .crash => none
  | .ok body =>
    match body with
    | .arr items =>
      match (jarrToList items).mapM asJObj with
      | some rawObs => some ⟨r.code, r.name, rawObs.map format_observation, none⟩
      | none => none
    | _ => none

/-- The `RunOutput` payload `main` serializes to `data.json`. -/
structure RunOutput where
  last_updated : String
  config : JValue
  regions : List RegionEntry
  deriving DecidableEq

namespace Scraper

/-- `main` (src/scraper.py lines 284-341): the API key from the
environment (`None` and the empty string are both rejected), the parsed
configuration, one `processRegion` per configured region in order, and the
timestamp (`datetime.utcnow()`, passed in as `now`).  `Except.error`
models a process exit with non-zero status, `Except.ok` an exit with
status 0. -/
def main (env_api_key : Option String) (configText : String)
    (http : HttpRequest → HttpResponse) (now : String) : Except String RunOutput :=
  match env_api_key with
  | none => .error "EBIRD_API_KEY environment variable not set"
  | some api_key =>
    if api_key = "" then .error "EBIRD_API_KEY environment variable not set"
    else
      match load_config configText with
      | none => .error "config.json missing or malformed"
      | some config =>
        match extractRegions config with
        | none => .error "regions missing or ill-shaped in config.json"
        | some regions =>
          match regions.mapM
              (processRegion http api_key (jGetD config "days_back" (.num 7))
                (jGetD config "max_results" (.num 100))) with
          | none => .error "unexpected response shape"
          | some entries => .ok ⟨now, config, entries⟩

end Scraper

/-- The process exit status `main` produces. -/
def exitStatus : Except String RunOutput → Nat
  | .ok _ => 0
  | .error _ => 1

/-- One accumulated region entry as a JSON value: exactly the dict built
at src/scraper.py lines 305-309 (success, no `error` key) or lines
313-318 (failure, with an `error` key). -/
def regionEntryToJson (e : RegionEntry) : JValue :=
  .obj (.cons "code" (.str e.code) (.cons "name" (.str e.name)
    (.cons "observations" (.arr (listToJArr (e.observations.map JValue.obj)))
      (match e.error with
       | none => .nil
       | some msg => .cons "error" (.str msg) .nil))))

/-- The `json_output` dict of src/scraper.py lines 328-332. -/
def runOutputToJson (out : RunOutput) : JValue :=
  .obj (.cons "last_updated" (.str out.last_updated)
    (.cons "config" out.config
      (.cons "regions" (.arr (listToJArr (out.regions.map regionEntryToJson))) .nil)))

/-- The text `main` writes to `docs/data.json`
(`json.dump(json_output, f, indent=2)`). -/
def dataJsonText (out : RunOutput) : String :=
  String.mk (dumpV (runOutputToJson out) 0)

/-! ## `generate_html` (src/scraper.py lines 60-101 and the template) -/

/-- Python `d[k]` on the formatted-observation dicts.  (CPython raises
`KeyError` on a missing key; every dict `generate_html` receives from
`main` is built by `format_observation` and carries all thirteen keys, so
on every reachable input this total lookup agrees with the source.) -/
def pyIdx (obs : JObj) (k : String) : JValue := (obs.get? k).getD .null

/-- `count_str = f"{obs['count']}" if obs['count'] != "X" else "present"`. -/
def count_str (obs : JObj) : String :=
  if pyIdx obs "count" = .str "X" then "present" else pyStr (pyIdx obs "count")

/-- `checklist_link` (line 75). -/
def checklist_link (obs : JObj) : String :=
  if pyTruthy (pyIdx obs "checklist_url") then
    "<a href=\"" ++ pyStr (pyIdx obs "checklist_url") ++ "\" target=\"_blank\">View checklist</a>"
  else ""

/-- `species_link` (line 76). -/
def species_link (obs : JObj) : String :=
  if pyTruthy (pyIdx obs "species_url") then
    "<a href=\"" ++ pyStr (pyIdx obs "species_url") ++ "\" target=\"_blank\">" ++
      pyStr (pyIdx obs "species") ++ "</a>"
  else pyStr (pyIdx obs "species")

/-- The fixed pieces of the per-observation f-string (lines 78-91), in
order, with the exact whitespace of the Python triple-quoted literal. -/
def obsL1 : String :=
  "\n                <div class=\"observation\">\n                    <div class=\"species-name\">"

def obsL2 : String := "</div>\n                    <div class=\"species-scientific\">"

def obsL3 : String :=
  "</div>\n                    <div class=\"details\">\n                        <span class=\"count\">"

def obsL4 : String := "</span> at\n                        <span class=\"location\">"

def obsL5 : String :=
  "</span>\n                    </div>\n                    <div class=\"meta\">\n                        <span class=\"date\">"

def obsL6 : String := "</span>\n                        "

def obsL7 : String := "\n                    </div>\n                </div>\n                "

/-- The per-observation fragment appended to `obs_items` (lines 78-91). -/
def obsItemHtml (obs : JObj) : String :=
  obsL1 ++ species_link obs ++
  obsL2 ++ pyStr (pyIdx obs "scientific_name") ++
  obsL3 ++ count_str obs ++
  obsL4 ++ pyStr (pyIdx obs "location") ++
  obsL5 ++ pyStr (pyIdx obs "date") ++
  obsL6 ++ checklist_link obs ++
  obsL7

/-- `obs_html` for one region (lines 69-92): the fixed placeholder when
there are no observations, otherwise the accumulated fragments. -/
def obsHtml (observations : List JObj) : String :=
  if observations = [] then "<p>No notable sightings in the past week.</p>"
  else observations.foldl (fun acc o => acc ++ obsItemHtml o) ""

/-- The fixed text of the region section before the region name. -/
def sectionPre : String :=
  "\n        <section class=\"region\">\n            <h2>"

/-- The fixed text of the region section between the name and `obs_html`. -/
def sectionMid : String :=
  "</h2>\n            <div class=\"observations\">\n                "

/-- The fixed text of the region section after `obs_html`. -/
def sectionPost : String :=
  "\n            </div>\n        </section>\n        "

/-- The fragment appended to `regions_html` for one region (lines
94-101).  (The source reads exactly `region_data["name"]` and
`region_data["observations"]` of each entry.) -/
def sectionHtml (e : RegionEntry) : String :=
  sectionPre ++ e.name ++ sectionMid ++ obsHtml e.observations ++ sectionPost

/-- Lines 103 up to the `last_updated` interpolation of the template, as
one literal (string gaps only break the source lines). -/
def htmlDocPre : String :=
  "<!DOCTYPE html>
<html lang=\"en\">
<head>
    <meta charset=\"UTF-8\">
    <meta name=\"viewport\" content=\"width=device-width, initial-scale=1.0\">
    <title>eBird Notable Sightings</title>
    <style>
        :root \x7b
            --primary: #2e7d32;
            --primary-light: #4caf50;
            --bg: #f5f5f5;
            --card-bg: #ffffff;
            --text: #333333;
            --text-light: #666666;
            --border: #e0e0e0;
        \x7d

        * \x7b
            box-sizing: border-box;
            margin: 0;
            padding: 0;
        \x7d

        body \x7b
            font-family: -apple-system, BlinkMacSystemFont, \x27Segoe UI\x27, Roboto, Oxygen, Ubuntu, sans-serif;
            background: var(--bg);
            color: var(--text);
            line-height: 1.6;
            padding: 20px;
        \x7d

        .container \x7b
            max-width: 900px;
            margin: 0 auto;
        \x7d

        header \x7b
            text-align: center;
            padding: 30px 0;
            border-bottom: 2px solid var(--primary);
            margin-bottom: 30px;
        \x7d

        h1 \x7b
            color: var(--primary);
            font-size: 2rem;
            margin-bottom: 10px;
        \x7d

        .last-updated \x7b
            color: var(--text-light);
            font-size: 0.9rem;
        \x7d

        .region \x7b
            margin-bottom: 40px;
        \x7d

        .region h2 \x7b
            color: var(--primary);
            border-bottom: 1px solid var(--border);
            padding-bottom: 10px;
            margin-bottom: 20px;
        \x7d

        .observation \x7b
            background: var(--card-bg);
            border-radius: 8px;
            padding: 15px 20px;
            margin-bottom: 15px;
            box-shadow: 0 2px 4px rgba(0,0,0,0.1);
            border-left: 4px solid var(--primary-light);
        \x7d

        .species-name \x7b
            font-size: 1.2rem;
            font-weight: 600;
            color: var(--primary);
        \x7d

        .species-name a \x7b
            color: inherit;
            text-decoration: none;
        \x7d

        .species-name a:hover \x7b
            text-decoration: underline;
        \x7d

        .species-scientific \x7b
            font-style: italic;
            color: var(--text-light);
            font-size: 0.9rem;
            margin-bottom: 8px;
        \x7d

        .details \x7b
            margin: 8px 0;
        \x7d

        .count \x7b
            font-weight: 600;
            background: var(--primary-light);
            color: white;
            padding: 2px 8px;
            border-radius: 4px;
            font-size: 0.85rem;
        \x7d

        .location \x7b
            color: var(--text);
        \x7d

        .meta \x7b
            display: flex;
            justify-content: space-between;
            align-items: center;
            margin-top: 10px;
            font-size: 0.85rem;
            color: var(--text-light);
        \x7d

        .meta a \x7b
            color: var(--primary);
            text-decoration: none;
        \x7d

        .meta a:hover \x7b
            text-decoration: underline;
        \x7d

        footer \x7b
            text-align: center;
            padding: 30px 0;
            color: var(--text-light);
            font-size: 0.85rem;
            border-top: 1px solid var(--border);
            margin-top: 40px;
        \x7d

        footer a \x7b
            color: var(--primary);
        \x7d

        @media (max-width: 600px) \x7b
            body \x7b
                padding: 10px;
            \x7d

            h1 \x7b
                font-size: 1.5rem;
            \x7d

            .observation \x7b
                padding: 12px 15px;
            \x7d
        \x7d
    </style>
</head>
<body>
    <div class=\"container\">
        <header>
            <h1>Notable Bird Sightings</h1>
            <p class=\"last-updated\">Last updated: "

/-- From after the `last_updated` interpolation to the `regions_html`
interpolation. -/
def htmlDocMid : String :=
  "</p>
        </header>

        <main>
            "

/-- From after the `regions_html` interpolation to the end of the
document. -/
def htmlDocPost : String :=
  "
        </main>

        <footer>
            <p>Data from <a href=\"https://ebird.org\" target=\"_blank\">eBird</a> |
            Updated automatically via GitHub Actions</p>
        </footer>
    </div>
</body>
</html>
"

/-- `generate_html` (src/scraper.py lines 60-281).  The `config` argument
is accepted and never used, exactly as in the source. -/
def generate_html (all_observations : List RegionEntry) (config : JValue)
    (last_updated : String) : String :=
  let regions_html := all_observations.foldl (fun acc e => acc ++ sectionHtml e) ""
  htmlDocPre ++ last_updated ++ htmlDocMid ++ regions_html ++ htmlDocPost

/-- The text `main` writes to `docs/index.html`. -/
def indexHtmlText (out : RunOutput) : String :=
  generate_html out.regions out.config out.last_updated

/-! ## Substring occurrence -/

/-- `pat` occurs verbatim (character for character) inside `s`. -/
def strOccurs (s pat : String) : Prop :=
  ∃ pre post : String, s = pre ++ pat ++ post

/-- Executable prefix test. -/
def isPrefC : List Char → List Char → Bool
  | [], _ => true
  | _ :: _, [] => false
  | p :: ps, c :: cs => p == c && isPrefC ps cs

/-- Executable occurrence scan (used to settle concrete occurrence facts
by kernel evaluation). -/
def occScan (pat : List Char) : List Char → Bool
  | [] => isPrefC pat []
  | c :: cs => isPrefC pat (c :: cs) || occScan pat cs

theorem isPrefC_iff (p s : List Char) : isPrefC p s = true ↔ p <+: s := by
  induction p generalizing s with
  | nil => simp [isPrefC]
  | cons a ps ih =>
    cases s with
    | nil =>
      simp only [isPrefC, List.prefix_nil]
      simp
    | cons c cs =>
      simp only [isPrefC, Bool.and_eq_true, beq_iff_eq, ih, List.cons_prefix_cons]

theorem occScan_iff (pat s : List Char) : occScan pat s = true ↔ pat <:+: s := by
  induction s with
  | nil => simp [occScan, isPrefC_iff, List.infix_nil, List.prefix_nil]
  | cons c cs ih =>
    simp only [occScan, Bool.or_eq_true, isPrefC_iff, ih, List.infix_cons_iff]

theorem strOccurs_iff (s pat : String) : strOccurs s pat ↔ pat.data <:+: s.data := by
  constructor
  · rintro ⟨pre, post, rfl⟩
    exact ⟨pre.data, post.data, by simp⟩
  · rintro ⟨a, b, h⟩
    refine ⟨⟨a⟩, ⟨b⟩, ?_⟩
    apply congrArg String.mk
    simpa using h.symm

theorem strOccurs_iff_occScan (s pat : String) :
    strOccurs s pat ↔ occScan pat.data s.data = true := by
  rw [strOccurs_iff, occScan_iff]

/-- Occurrence is preserved by surrounding concatenation. -/
theorem strOccurs_append (a m b : String) (x : String) (h : strOccurs m x) :
    strOccurs (a ++ m ++ b) x := by
  obtain ⟨p, q, rfl⟩ := h
  refine ⟨a ++ p, q ++ b, ?_⟩
  apply congrArg String.mk
  simp

/-- Direct occurrence from an explicit decomposition. -/
theorem strOccurs_of_parts (pre x post : String) : strOccurs (pre ++ x ++ post) x :=
  ⟨pre, post, rfl⟩

/-! ## Evaluating `format_observation` lookups -/

theorem fmt_get_species (obs : JObj) :
    (format_observation obs).get? "species" = some (pyGet obs "comName" (.str "Unknown")) := rfl

theorem fmt_get_scientific (obs : JObj) :
    (format_observation obs).get? "scientific_name" = some (pyGet obs "sciName" (.str "")) := rfl

theorem fmt_get_count (obs : JObj) :
    (format_observation obs).get? "count" = some (pyGet obs "howMany" (.str "X")) := rfl

theorem fmt_get_location (obs : JObj) :
    (format_observation obs).get? "location" = some (pyGet obs "locName" (.str "Unknown location")) := rfl

theorem fmt_get_date (obs : JObj) :
    (format_observation obs).get? "date" = some (pyGet obs "obsDt" (.str "")) := rfl

theorem fmt_get_lat (obs : JObj) :
    (format_observation obs).get? "lat" = some (pyGet obs "lat" .null) := rfl

theorem fmt_get_lng (obs : JObj) :
    (format_observation obs).get? "lng" = some (pyGet obs "lng" .null) := rfl

theorem fmt_get_checklist_url (obs : JObj) :
    (format_observation obs).get? "checklist_url" =
      some (if pyTruthy (pyGet obs "subId" .null) then
        .str ("https://ebird.org/checklist/" ++ pyStr (pyGet obs "subId" (.str "")))
      else .null) := rfl

theorem fmt_get_species_url (obs : JObj) :
    (format_observation obs).get? "species_url" =
      some (if pyTruthy (pyGet obs "speciesCode" .null) then
        .str ("https://ebird.org/species/" ++ pyStr (pyGet obs "speciesCode" (.str "")))
      else .null) := rfl

theorem fmt_get_location_id (obs : JObj) :
    (format_observation obs).get? "location_id" = some (pyGet obs "locId" (.str "")) := rfl

theorem fmt_get_observer (obs : JObj) :
    (format_observation obs).get? "observer" = some (pyGet obs "userDisplayName" (.str "")) := rfl

theorem fmt_get_is_valid (obs : JObj) :
    (format_observation obs).get? "is_valid" = some (pyGet obs "obsValid" (.bool true)) := rfl

theorem fmt_get_is_reviewed (obs : JObj) :
    (format_observation obs).get? "is_reviewed" = some (pyGet obs "obsReviewed" (.bool false)) := rfl

theorem pyGet_absent (obs : JObj) (k : String) (d : JValue) (h : obs.get? k = none) :
    pyGet obs k d = d := by simp [pyGet, h]

theorem pyGet_present (obs : JObj) (k : String) (d v : JValue) (h : obs.get? k = some v) :
    pyGet obs k d = v := by simp [pyGet, h]

/-! ## Claim C2 -/

/-- Claim C2: `format_observation` is total — for every input mapping it
returns a mapping with all thirteen fixed output keys, and when a source
field is absent the documented default is used (species `"Unknown"`,
scientific_name `""`, count `"X"`, location `"Unknown location"`, date
`""`, observer `""`, is_valid `true`, is_reviewed `false`). -/
theorem C2_format_observation_total (obs : JObj) :
    (format_observation obs).keys =
      ["species", "scientific_name", "count", "location", "date", "lat", "lng",
       "checklist_url", "species_url", "location_id", "observer", "is_valid",
       "is_reviewed"] ∧
    (obs.get? "comName" = none →
      (format_observation obs).get? "species" = some (.str "Unknown")) ∧
    (obs.get? "sciName" = none →
      (format_observation obs).get? "scientific_name" = some (.str "")) ∧
    (obs.get? "howMany" = none →
      (format_observation obs).get? "count" = some (.str "X")) ∧
    (obs.get? "locName" = none →
      (format_observation obs).get? "location" = some (.str "Unknown location")) ∧
    (obs.get? "obsDt" = none →
      (format_observation obs).get? "date" = some (.str "")) ∧
    (obs.get? "userDisplayName" = none →
      (format_observation obs).get? "observer" = some (.str "")) ∧
    (obs.get? "obsValid" = none →
      (format_observation obs).get? "is_valid" = some (.bool true)) ∧
    (obs.get? "obsReviewed" = none →
      (format_observation obs).get? "is_reviewed" = some (.bool false)) := by
  refine ⟨rfl, ?_, ?_, ?_, ?_, ?_, ?_, ?_, ?_⟩ <;> intro h
  · rw [fmt_get_species, pyGet_absent _ _ _ h]
  · rw [fmt_get_scientific, pyGet_absent _ _ _ h]
  · rw [fmt_get_count, pyGet_absent _ _ _ h]
  · rw [fmt_get_location, pyGet_absent _ _ _ h]
  · rw [fmt_get_date, pyGet_absent _ _ _ h]
  · rw [fmt_get_observer, pyGet_absent _ _ _ h]
  · rw [fmt_get_is_valid, pyGet_absent _ _ _ h]
  · rw [fmt_get_is_reviewed, pyGet_absent _ _ _ h]

/-- Witness for C2 at the empty mapping (every source field absent). -/
theorem C2_format_observation_total_witness :
    (format_observation .nil).keys =
      ["species", "scientific_name", "count", "location", "date", "lat", "lng",
       "checklist_url", "species_url", "location_id", "observer", "is_valid",
       "is_reviewed"] ∧
    (format_observation .nil).get? "species" = some (.str "Unknown") ∧
    (format_observation .nil).get? "scientific_name" = some (.str "") ∧
    (format_observation .nil).get? "count" = some (.str "X") ∧
    (format_observation .nil).get? "location" = some (.str "Unknown location") ∧
    (format_observation .nil).get? "date" = some (.str "") ∧
    (format_observation .nil).get? "observer" = some (.str "") ∧
    (format_observation .nil).get? "is_valid" = some (.bool true) ∧
    (format_observation .nil).get? "is_reviewed" = some (.bool false) := by
  have h := C2_format_observation_total .nil
  exact ⟨h.1, h.2.1 rfl, h.2.2.1 rfl, h.2.2.2.1 rfl, h.2.2.2.2.1 rfl,
    h.2.2.2.2.2.1 rfl, h.2.2.2.2.2.2.1 rfl, h.2.2.2.2.2.2.2.1 rfl,
    h.2.2.2.2.2.2.2.2 rfl⟩

/-! ## Claim C3 -/

theorem pyTruthy_str (s : String) : pyTruthy (.str s) = true ↔ s ≠ "" := by
  simp [pyTruthy]

/-- Claim C3: `checklist_url` is non-null iff `subId` is present and a
non-empty string, and then equals `https://ebird.org/checklist/` followed
by the `subId`; likewise `species_url` from `speciesCode` with
`https://ebird.org/species/`.  (The two source fields are string-valued in
the remote API; the hypotheses restrict them to a string, `null`, or
absent.) -/
theorem C3_url_derivation (obs : JObj)
    (hsub : obs.get? "subId" = none ∨ obs.get? "subId" = some .null ∨
      ∃ s, obs.get? "subId" = some (.str s))
    (hspc : obs.get? "speciesCode" = none ∨ obs.get? "speciesCode" = some .null ∨
      ∃ s, obs.get? "speciesCode" = some (.str s)) :
    ((format_observation obs).get? "checklist_url" ≠ some .null ↔
      ∃ s, obs.get? "subId" = some (.str s) ∧ s ≠ "") ∧
    (∀ s, obs.get? "subId" = some (.str s) → s ≠ "" →
      (format_observation obs).get? "checklist_url" =
        some (.str ("https://ebird.org/checklist/" ++ s))) ∧
    ((format_observation obs).get? "species_url" ≠ some .null ↔
      ∃ s, obs.get? "speciesCode" = some (.str s) ∧ s ≠ "") ∧
    (∀ s, obs.get? "speciesCode" = some (.str s) → s ≠ "" →
      (format_observation obs).get? "species_url" =
        some (.str ("https://ebird.org/species/" ++ s))) := by
  refine ⟨?_, ?_, ?_, ?_⟩
  · rcases hsub with h | h | ⟨s, h⟩
    · rw [fmt_get_checklist_url, pyGet_absent _ _ _ h]
      simp [pyTruthy, h]
    · rw [fmt_get_checklist_url, pyGet_present _ _ _ _ h]
      simp [pyTruthy, h]
    · rw [fmt_get_checklist_url, pyGet_present _ _ _ _ h]
      by_cases hs : s = ""
      · subst hs; simp [pyTruthy, h]
      · simp [pyTruthy, hs, h, pyGet_present _ _ _ _ h, pyStr]
  · intro s h hs
    rw [fmt_get_checklist_url, pyGet_present _ _ _ _ h, pyGet_present _ _ _ _ h]
    simp [pyTruthy, hs, pyStr]
  · rcases hspc with h | h | ⟨s, h⟩
    · rw [fmt_get_species_url, pyGet_absent _ _ _ h]
      simp [pyTruthy, h]
    · rw [fmt_get_species_url, pyGet_present _ _ _ _ h]
      simp [pyTruthy, h]
    · rw [fmt_get_species_url, pyGet_present _ _ _ _ h]
      by_cases hs : s = ""
      · subst hs; simp [pyTruthy, h]
      · simp [pyTruthy, hs, h, pyGet_present _ _ _ _ h, pyStr]
  · intro s h hs
    rw [fmt_get_species_url, pyGet_present _ _ _ _ h, pyGet_present _ _ _ _ h]
    simp [pyTruthy, hs, pyStr]

/-- Witness for C3: a present non-empty `subId` yields exactly the
checklist URL, and with `speciesCode` absent the species URL is null. -/
theorem C3_url_derivation_witness :
    (format_observation (.cons "subId" (.str "S99") .nil)).get? "checklist_url" =
      some (.str "https://ebird.org/checklist/S99") ∧
    ¬ ((format_observation (.cons "subId" (.str "S99") .nil)).get? "species_url" ≠
        some .null) := by
  have h := C3_url_derivation (.cons "subId" (.str "S99") .nil)
    (Or.inr (Or.inr ⟨"S99", by decide⟩)) (Or.inl (by decide))
  refine ⟨h.2.1 "S99" (by decide) (by decide), ?_⟩
  intro hne
  obtain ⟨s, hs, _⟩ := h.2.2.1.mp hne
  simp [JObj.get?] at hs

/-! ## Claim C5 -/

/-- Counterexample for Claim C5: `load_config` applies no defaults.  On
the descriptor `{"regions": []}` it returns the parsed document unchanged,
with no `days_back` and no `max_results` field. -/
theorem C5_counterexample :
    load_config "\x7b\"regions\": []\x7d" = some (.obj (.cons "regions" (.arr .nil) .nil)) ∧
    JObj.get? (.cons "regions" (.arr .nil) .nil) "days_back" = none ∧
    JObj.get? (.cons "regions" (.arr .nil) .nil) "max_results" = none := by
  decide

/-- Claim C5 (amended): `load_config` returns the parsed descriptor
unchanged; the defaults 7 and 100 for `days_back` and `max_results` are
applied at the point of use in `main` (`config.get(...)`), so when both
fields are absent the run proceeds exactly as if the literal values 7 and
100 had been passed to every per-region fetch. -/
theorem C5_defaults_applied_at_use
    (key cfgText now : String) (http : HttpRequest → HttpResponse)
    (fields : JObj) (rs : List Region)
    (hkey : key ≠ "")
    (hcfg : load_config cfgText = some (.obj fields))
    (hdb : fields.get? "days_back" = none)
    (hmr : fields.get? "max_results" = none)
    (hrs : extractRegions (.obj fields) = some rs) :
    Scraper.main (some key) cfgText http now =
      (match rs.mapM (processRegion http key (.num 7) (.num 100)) with
       | none => .error "unexpected response shape"
       | some entries => .ok ⟨now, .obj fields, entries⟩) := by
  unfold Scraper.main
  simp only [hcfg, hrs, if_neg hkey]
  have h7 : jGetD (.obj fields) "days_back" (.num 7) = .num 7 := by
    simp [jGetD, hdb]
  have h100 : jGetD (.obj fields) "max_results" (.num 100) = .num 100 := by
    simp [jGetD, hmr]
  rw [h7, h100]

def witHttpOk : HttpRequest → HttpResponse := fun _ => ⟨200, "OK", "u", "[]"⟩

/-! ## The shape of `processRegion` results -/

theorem fetch_eq_httpError_iff (http : HttpRequest → HttpResponse)
    (key code : String) (back maxR : JValue) (msg : String) :
    fetch_notable_observations http key code back maxR = .httpError msg ↔
      raise_for_status (http (mkRequest key code back maxR)) = some msg := by
  simp only [fetch_notable_observations]
  cases hr : raise_for_status (http (mkRequest key code back maxR)) with
  | some m => simp
  | none => cases hp : parseJson (http (mkRequest key code back maxR)).body <;> simp

/-- Every entry `processRegion` returns carries the region's code and
name, and is either a success entry (no error, after a non-raising
response) or a failure entry (empty observations, the `HTTPError`
message as error). -/
theorem processRegion_some_shape (http : HttpRequest → HttpResponse)
    (key : String) (back maxR : JValue) (r : Region) (entry : RegionEntry)
    (h : processRegion http key back maxR r = some entry) :
    entry.code = r.code ∧ entry.name = r.name ∧
    ((raise_for_status (http (mkRequest key r.code back maxR)) = none ∧
        entry.error = none) ∨
      (∃ msg, raise_for_status (http (mkRequest key r.code back maxR)) = some msg ∧
        entry.error = some msg ∧ entry.observations = [])) := by
  unfold processRegion at h
  cases hf : fetch_notable_observations http key r.code back maxR with
  | httpError msg =>
    rw [hf] at h
    simp only [Option.some.injEq] at h
    subst h
    refine ⟨rfl, rfl, Or.inr ⟨msg, ?_, rfl, rfl⟩⟩
    exact (fetch_eq_httpError_iff http key r.code back maxR msg).mp hf
  | crash => rw [hf] at h; simp at h
  | ok body =>
    have hr : raise_for_status (http (mkRequest key r.code back maxR)) = none := by
      revert hf
      simp only [fetch_notable_observations]
      cases hr : raise_for_status (http (mkRequest key r.code back maxR)) with
      | some m => simp
      | none => intro _; rfl
    cases body with
    | arr items =>
      simp only [hf] at h
      cases hm : (jarrToList items).mapM asJObj with
      | none => simp only [hm] at h; exact Option.noConfusion h
      | some rawObs =>
        simp only [hm, Option.some.injEq] at h
        subst h
        exact ⟨rfl, rfl, Or.inl ⟨hr, rfl⟩⟩
    | null => simp only [hf] at h; exact Option.noConfusion h
    | bool b => simp only [hf] at h; exact Option.noConfusion h
    | num n => simp only [hf] at h; exact Option.noConfusion h
    | str s => simp only [hf] at h; exact Option.noConfusion h
    | obj o => simp only [hf] at h; exact Option.noConfusion h

/-- The serialized region entry: the `error` key is bound to the string
error when one was recorded, and wholly absent otherwise. -/
theorem regionEntryToJson_error_key (e : RegionEntry) :
    ∃ fields, regionEntryToJson e = .obj fields ∧
      fields.get? "error" = e.error.map JValue.str := by
  cases he : e.error with
  | none => exact ⟨_, rfl, by simp [regionEntryToJson, he, JObj.get?]⟩
  | some msg => exact ⟨_, rfl, by simp [regionEntryToJson, he, JObj.get?]⟩

/-! ## Claim C9 -/

/-- Claim C9: in the entry `main` appends for a region, the `error` key is
present exactly when that region's fetch raised an `HTTPError`; an entry
for a successful region has no `error` key at all, and when the key is
present it is never bound to `null`. -/
theorem C9_error_key_iff_http_error (http : HttpRequest → HttpResponse)
    (key : String) (back maxR : JValue) (r : Region) (entry : RegionEntry)
    (h : processRegion http key back maxR r = some entry) :
    ∃ fields, regionEntryToJson entry = .obj fields ∧
      (fields.get? "error" = none ↔
        raise_for_status (http (mkRequest key r.code back maxR)) = none) ∧
      (∀ v, fields.get? "error" = some v → v ≠ .null) := by
  obtain ⟨-, -, hcase⟩ := processRegion_some_shape http key back maxR r entry h
  obtain ⟨fields, hf, hget⟩ := regionEntryToJson_error_key entry
  refine ⟨fields, hf, ?_, ?_⟩
  · rcases hcase with ⟨hr, he⟩ | ⟨msg, hr, he, -⟩
    · rw [hget, he, hr]; simp
    · rw [hget, he, hr]; simp
  · intro v hv
    rw [hget] at hv
    cases he : entry.error with
    | none => rw [he] at hv; simp at hv
    | some msg =>
      rw [he] at hv
      have hvv : JValue.str msg = v := by simpa using hv
      subst hvv
      simp

def witHttp404 : HttpRequest → HttpResponse := fun _ => ⟨404, "Not Found", "u", ""⟩

/-- Witness for C9: a 404 response yields an entry whose JSON carries a
non-null `error`, satisfying the characterization. -/
theorem C9_error_key_iff_http_error_witness :
    ∃ fields,
      regionEntryToJson ⟨"US", "USA", [],
        some ("404 Client Error: Not Found for url: u")⟩ = .obj fields ∧
      (fields.get? "error" = none ↔
        raise_for_status (witHttp404 (mkRequest "k" "US" (.num 7) (.num 100))) = none) ∧
      (∀ v, fields.get? "error" = some v → v ≠ .null) :=
  C9_error_key_iff_http_error witHttp404 "k" (.num 7) (.num 100) ⟨"US", "USA"⟩
    ⟨"US", "USA", [], some ("404 Client Error: Not Found for url: u")⟩ (by decide)

/-! ## Claim C10 -/

theorem sectionHtml_congr (e1 e2 : RegionEntry) (hn : e1.name = e2.name)
    (ho : e1.observations = e2.observations) : sectionHtml e1 = sectionHtml e2 := by
  unfold sectionHtml
  rw [hn, ho]

theorem regionsHtml_congr (l1 : List RegionEntry) :
    ∀ (l2 : List RegionEntry),
      l1.map RegionEntry.name = l2.map RegionEntry.name →
      l1.map RegionEntry.observations = l2.map RegionEntry.observations →
      ∀ acc : String,
        l1.foldl (fun acc e => acc ++ sectionHtml e) acc =
          l2.foldl (fun acc e => acc ++ sectionHtml e) acc := by
  induction l1 with
  | nil =>
    intro l2 hn _ acc
    cases l2 with
    | nil => rfl
    | cons f fs => simp at hn
  | cons e es ih =>
    intro l2 hn ho acc
    cases l2 with
    | nil => simp at hn
    | cons f fs =>
      simp only [List.map_cons, List.cons.injEq] at hn ho
      simp only [List.foldl_cons]
      rw [sectionHtml_congr e f hn.1 ho.1]
      exact ih fs hn.2 ho.2 (acc ++ sectionHtml f)

/-- Claim C10: the page depends only on each entry's `name` and
`observations`: two entry lists agreeing pointwise on those fields (but
possibly differing in `code` and `error`, and rendered with different
configurations) produce identical documents.  In particular a failed
region (empty observations, error set) renders exactly like a successful
region with no observations, and no error string reaches the page. -/
theorem C10_html_depends_only_on_name_and_observations
    (entries1 entries2 : List RegionEntry) (config1 config2 : JValue) (ts : String)
    (hn : entries1.map RegionEntry.name = entries2.map RegionEntry.name)
    (ho : entries1.map RegionEntry.observations = entries2.map RegionEntry.observations) :
    generate_html entries1 config1 ts = generate_html entries2 config2 ts := by
  unfold generate_html
  rw [regionsHtml_congr entries1 entries2 hn ho ""]

/-- Witness for C10: a failed region renders identically to a successful
empty one with a different code and configuration. -/
theorem C10_html_depends_only_on_name_and_observations_witness :
    generate_html [⟨"A", "R", [], some "404 Client Error: x for url: u"⟩] .null "t" =
      generate_html [⟨"B", "R", [], none⟩] (.num 5) "t" :=
  C10_html_depends_only_on_name_and_observations
    [⟨"A", "R", [], some "404 Client Error: x for url: u"⟩] [⟨"B", "R", [], none⟩]
    .null (.num 5) "t" (by decide) (by decide)

/-! ## Claim C1 -/

theorem mapM_processRegion_names (http : HttpRequest → HttpResponse)
    (key : String) (back maxR : JValue) :
    ∀ (rs : List Region) (entries : List RegionEntry),
      rs.mapM (processRegion http key back maxR) = some entries →
      entries.map RegionEntry.code = rs.map Region.code ∧
      entries.map RegionEntry.name = rs.map Region.name := by
  intro rs
  induction rs with
  | nil =>
    intro entries h
    simp only [List.mapM_nil, Option.pure_def, Option.some.injEq] at h
    subst h
    simp
  | cons r rs ih =>
    intro entries h
    rw [List.mapM_cons] at h
    simp only [Option.pure_def, Option.bind_eq_bind, Option.bind_eq_some,
      Option.some.injEq] at h
    obtain ⟨e, he, es, hes, rfl⟩ := h
    obtain ⟨hc, hn, -⟩ := processRegion_some_shape http key back maxR r e he
    obtain ⟨ihc, ihn⟩ := ih es hes
    simp only [List.map_cons, hc, hn, ihc, ihn, and_self]

/-- Claim C1: whenever `main` completes, the produced list of region
results has exactly one entry per configured region, in configuration
order, and the i-th entry carries the code and name of the i-th region —
regardless of which fetches succeeded or failed with an `HTTPError`. -/
theorem C1_region_results_match_config (env_api_key : Option String)
    (cfgText now : String) (http : HttpRequest → HttpResponse)
    (out : RunOutput) (cfg : JValue) (rs : List Region)
    (hcfg : load_config cfgText = some cfg)
    (hrs : extractRegions cfg = some rs)
    (hmain : Scraper.main env_api_key cfgText http now = .ok out) :
    out.regions.length = rs.length ∧
    out.regions.map RegionEntry.code = rs.map Region.code ∧
    out.regions.map RegionEntry.name = rs.map Region.name := by
  unfold Scraper.main at hmain
  cases env_api_key with
  | none => simp at hmain
  | some key =>
    by_cases hk : key = ""
    · simp only [if_pos hk] at hmain
      exact Except.noConfusion hmain
    · simp only [if_neg hk, hcfg, hrs] at hmain
      cases hm : rs.mapM (processRegion http key (jGetD cfg "days_back" (.num 7))
          (jGetD cfg "max_results" (.num 100))) with
      | none => rw [hm] at hmain; simp at hmain
      | some entries =>
        rw [hm] at hmain
        simp only [Except.ok.injEq] at hmain
        subst hmain
        obtain ⟨hc, hn⟩ := mapM_processRegion_names _ _ _ _ rs entries hm
        refine ⟨?_, hc, hn⟩
        have := congrArg List.length hc
        simpa using this

/-! ## Claim C4 -/

theorem natToChars_ne_nil (n : Nat) : natToChars n ≠ [] := by
  unfold natToChars natToCharsF
  split <;> simp

theorem natToString_ne_empty (n : Nat) : natToString n ≠ "" := by
  intro h
  apply natToChars_ne_nil n
  have hd := congrArg String.data h
  simpa [natToString] using hd

theorem str_append_ne_empty_left (a b : String) (ha : a ≠ "") : a ++ b ≠ "" := by
  intro h
  apply ha
  have hd := congrArg String.data h
  simp only [String.data_append] at hd
  have h1 : a.data = [] := (List.append_eq_nil.mp hd).1
  cases a
  simpa [String.ext_iff] using h1

/-- `raise_for_status` raises, with a non-empty message, exactly on
4xx/5xx responses. -/
theorem raise_for_status_4xx5xx (resp : HttpResponse)
    (h4 : 400 ≤ resp.status) (h6 : resp.status < 600) :
    ∃ msg, raise_for_status resp = some msg ∧ msg ≠ "" := by
  unfold raise_for_status
  by_cases h5 : resp.status < 500
  · rw [if_pos ⟨h4, h5⟩]
    refine ⟨_, rfl, ?_⟩
    exact str_append_ne_empty_left _ _ (str_append_ne_empty_left _ _
      (str_append_ne_empty_left _ _ (str_append_ne_empty_left _ _
        (natToString_ne_empty _))))
  · rw [if_neg (by omega), if_pos ⟨by omega, h6⟩]
    refine ⟨_, rfl, ?_⟩
    exact str_append_ne_empty_left _ _ (str_append_ne_empty_left _ _
      (str_append_ne_empty_left _ _ (str_append_ne_empty_left _ _
        (natToString_ne_empty _))))

theorem raise_for_status_not4xx5xx (resp : HttpResponse)
    (h : ¬ (400 ≤ resp.status ∧ resp.status < 600)) :
    raise_for_status resp = none := by
  unfold raise_for_status
  rw [if_neg (by omega), if_neg (by omega)]

theorem processRegion_of_raise_some (http : HttpRequest → HttpResponse)
    (key : String) (back maxR : JValue) (r : Region) (msg : String)
    (hr : raise_for_status (http (mkRequest key r.code back maxR)) = some msg) :
    processRegion http key back maxR r = some ⟨r.code, r.name, [], some msg⟩ := by
  unfold processRegion
  simp only [fetch_notable_observations, hr]

theorem processRegion_of_ok (http : HttpRequest → HttpResponse)
    (key : String) (back maxR : JValue) (r : Region)
    (items : JArr) (rawObs : List JObj)
    (hr : raise_for_status (http (mkRequest key r.code back maxR)) = none)
    (hp : parseJson (http (mkRequest key r.code back maxR)).body = some (.arr items))
    (hm : (jarrToList items).mapM asJObj = some rawObs) :
    processRegion http key back maxR r =
      some ⟨r.code, r.name, rawObs.map format_observation, none⟩ := by
  unfold processRegion
  simp only [fetch_notable_observations, hr, hp, hm]

theorem mapM_option_exists {α β : Type} (f : α → Option β) :
    ∀ l : List α, (∀ a ∈ l, ∃ b, f a = some b) → ∃ bl, l.mapM f = some bl := by
  intro l
  induction l with
  | nil => intro _; exact ⟨[], rfl⟩
  | cons a as ih =>
    intro h
    obtain ⟨b, hb⟩ := h a (by simp)
    obtain ⟨bl, hbl⟩ := ih (fun x hx => h x (by simp [hx]))
    refine ⟨b :: bl, ?_⟩
    simp only [List.mapM_cons, hb, hbl, Option.pure_def, Option.bind_eq_bind,
      Option.some_bind]

theorem mapM_option_get {α β : Type} (f : α → Option β) :
    ∀ (l : List α) (bl : List β), l.mapM f = some bl →
      bl.length = l.length ∧
      ∀ i (hi : i < l.length) (hi2 : i < bl.length),
        f (l.get ⟨i, hi⟩) = some (bl.get ⟨i, hi2⟩) := by
  intro l
  induction l with
  | nil =>
    intro bl h
    simp only [List.mapM_nil, Option.pure_def, Option.some.injEq] at h
    subst h
    exact ⟨rfl, fun i hi => absurd hi (by simp)⟩
  | cons a as ih =>
    intro bl h
    rw [List.mapM_cons] at h
    simp only [Option.pure_def, Option.bind_eq_bind, Option.bind_eq_some,
      Option.some.injEq] at h
    obtain ⟨b, hb, bs, hbs, rfl⟩ := h
    obtain ⟨hlen, hget⟩ := ih bs hbs
    refine ⟨by simp [hlen], ?_⟩
    intro i hi hi2
    cases i with
    | zero => simpa using hb
    | succ j =>
      have hj : j < as.length := by simpa using hi
      have hj2 : j < bs.length := by simpa using hi2
      simpa using hget j hj hj2

/-- Counterexample for Claim C4 as stated: a non-2xx response that is not
4xx/5xx (here a 302 whose body parses as an empty JSON array) does not
raise `HTTPError`; the region entry gets no error string at all, against
the claim's "non-2xx response ⇒ non-empty error string". -/
def ce4Http : HttpRequest → HttpResponse := fun _ => ⟨302, "Found", "u", "[]"⟩

def ce4CfgText : String :=
  "\x7b\"regions\": [\x7b\"code\": \"US\", \"name\": \"USA\"\x7d]\x7d"

def ce4Cfg : JValue :=
  .obj (.cons "regions"
    (.arr (.cons (.obj (.cons "code" (.str "US")
      (.cons "name" (.str "USA") .nil))) .nil)) .nil)

theorem C4_counterexample :
    Scraper.main (some "k") ce4CfgText ce4Http "ts" =
      .ok ⟨"ts", ce4Cfg, [⟨"US", "USA", [], none⟩]⟩ ∧
    (ce4Http (mkRequest "k" "US" (.num 7) (.num 100))).status = 302 ∧
    ¬ (200 ≤ (302 : Nat) ∧ (302 : Nat) < 300) ∧
    ∀ e : RegionEntry, e ∈ ([⟨"US", "USA", [], none⟩] : List RegionEntry) →
      e.error = none := by
  refine ⟨rfl, rfl, by omega, ?_⟩
  intro e he
  rw [List.mem_singleton] at he
  rw [he]

/-- Claim C4 (amended): for every region whose response has a 4xx or 5xx
status — the statuses for which `requests.Response.raise_for_status`
raises `HTTPError` — `main` records an entry with empty observations and
a non-empty error string, still processes every other region, and the
process exits with status 0 (provided every region either fails this way
or returns a well-formed body). -/
theorem C4_http_failures_recorded_and_run_continues
    (key cfgText now : String) (http : HttpRequest → HttpResponse)
    (cfg : JValue) (rs : List Region)
    (hkey : key ≠ "")
    (hcfg : load_config cfgText = some cfg)
    (hrs : extractRegions cfg = some rs)
    (hfetch : ∀ r ∈ rs,
      (400 ≤ (http (mkRequest key r.code (jGetD cfg "days_back" (.num 7))
          (jGetD cfg "max_results" (.num 100)))).status ∧
        (http (mkRequest key r.code (jGetD cfg "days_back" (.num 7))
          (jGetD cfg "max_results" (.num 100)))).status < 600) ∨
      (∃ items rawObs,
        parseJson (http (mkRequest key r.code (jGetD cfg "days_back" (.num 7))
          (jGetD cfg "max_results" (.num 100)))).body = some (.arr items) ∧
        (jarrToList items).mapM asJObj = some rawObs)) :
    ∃ out, Scraper.main (some key) cfgText http now = .ok out ∧
      exitStatus (Scraper.main (some key) cfgText http now) = 0 ∧
      out.regions.length = rs.length ∧
      ∀ i (hi : i < rs.length) (hi2 : i < out.regions.length),
        400 ≤ (http (mkRequest key (rs.get ⟨i, hi⟩).code
          (jGetD cfg "days_back" (.num 7)) (jGetD cfg "max_results" (.num 100)))).status →
        (http (mkRequest key (rs.get ⟨i, hi⟩).code
          (jGetD cfg "days_back" (.num 7)) (jGetD cfg "max_results" (.num 100)))).status < 600 →
        (out.regions.get ⟨i, hi2⟩).observations = [] ∧
        ∃ msg, (out.regions.get ⟨i, hi2⟩).error = some msg ∧ msg ≠ "" := by
  have hex : ∀ r ∈ rs, ∃ e,
      processRegion http key (jGetD cfg "days_back" (.num 7))
        (jGetD cfg "max_results" (.num 100)) r = some e := by
    intro r hr
    rcases hfetch r hr with ⟨h4, h6⟩ | ⟨items, rawObs, hp, hm⟩
    · obtain ⟨msg, hmsg, -⟩ := raise_for_status_4xx5xx _ h4 h6
      exact ⟨_, processRegion_of_raise_some http key _ _ r msg hmsg⟩
    · by_cases hst : 400 ≤ (http (mkRequest key r.code (jGetD cfg "days_back" (.num 7))
          (jGetD cfg "max_results" (.num 100)))).status ∧
        (http (mkRequest key r.code (jGetD cfg "days_back" (.num 7))
          (jGetD cfg "max_results" (.num 100)))).status < 600
      · obtain ⟨msg, hmsg, -⟩ := raise_for_status_4xx5xx _ hst.1 hst.2
        exact ⟨_, processRegion_of_raise_some http key _ _ r msg hmsg⟩
      · exact ⟨_, processRegion_of_ok http key _ _ r items rawObs
          (raise_for_status_not4xx5xx _ hst) hp hm⟩
  obtain ⟨entries, hentries⟩ := mapM_option_exists _ rs hex
  have hmain : Scraper.main (some key) cfgText http now = .ok ⟨now, cfg, entries⟩ := by
    unfold Scraper.main
    simp only [if_neg hkey, hcfg, hrs, hentries]
  obtain ⟨hlen, hget⟩ := mapM_option_get _ rs entries hentries
  refine ⟨⟨now, cfg, entries⟩, hmain, by rw [hmain]; rfl, hlen, ?_⟩
  intro i hi hi2 h4 h6
  obtain ⟨msg, hmsg, hne⟩ := raise_for_status_4xx5xx _ h4 h6
  have h1 := hget i hi hi2
  have h2 := processRegion_of_raise_some http key _ _ (rs.get ⟨i, hi⟩) msg hmsg
  rw [h2] at h1
  have h3 : (⟨(rs.get ⟨i, hi⟩).code, (rs.get ⟨i, hi⟩).name, [], some msg⟩ : RegionEntry) =
      entries.get ⟨i, hi2⟩ := by simpa using h1
  refine ⟨?_, msg, ?_, hne⟩
  · show (entries.get ⟨i, hi2⟩).observations = []
    rw [← h3]
  · show (entries.get ⟨i, hi2⟩).error = some msg
    rw [← h3]

def c4wHttp : HttpRequest → HttpResponse := fun _ => ⟨500, "Internal Server Error", "u", ""⟩

/-- Witness for the amended C4: a single region failing with a 500
response still yields exit status 0 and a recorded non-empty error. -/
theorem C4_http_failures_recorded_witness :
    ∃ out, Scraper.main (some "k") ce4CfgText c4wHttp "ts" = .ok out ∧
      exitStatus (Scraper.main (some "k") ce4CfgText c4wHttp "ts") = 0 ∧
      out.regions.length = ([⟨"US", "USA"⟩] : List Region).length ∧
      ∀ i (hi : i < ([⟨"US", "USA"⟩] : List Region).length) (hi2 : i < out.regions.length),
        400 ≤ (c4wHttp (mkRequest "k" (([⟨"US", "USA"⟩] : List Region).get ⟨i, hi⟩).code
          (jGetD ce4Cfg "days_back" (.num 7)) (jGetD ce4Cfg "max_results" (.num 100)))).status →
        (c4wHttp (mkRequest "k" (([⟨"US", "USA"⟩] : List Region).get ⟨i, hi⟩).code
          (jGetD ce4Cfg "days_back" (.num 7)) (jGetD ce4Cfg "max_results" (.num 100)))).status < 600 →
        (out.regions.get ⟨i, hi2⟩).observations = [] ∧
        ∃ msg, (out.regions.get ⟨i, hi2⟩).error = some msg ∧ msg ≠ "" :=
  C4_http_failures_recorded_and_run_continues "k" ce4CfgText "ts" c4wHttp ce4Cfg
    [⟨"US", "USA"⟩] (by decide) (by decide) (by decide)
    (by intro r hr; rw [List.mem_singleton] at hr; subst hr; left; exact ⟨by decide, by decide⟩)

def wCfgText1 : String :=
  "\x7b\"regions\": [\x7b\"code\": \"US-MA\", \"name\": \"Massachusetts\"\x7d]\x7d"

def wCfg1 : JValue :=
  .obj (.cons "regions"
    (.arr (.cons (.obj (.cons "code" (.str "US-MA")
      (.cons "name" (.str "Massachusetts") .nil))) .nil)) .nil)

/-- Witness for C1 on a one-region configuration and a successful run. -/
theorem C1_region_results_match_config_witness :
    (RunOutput.mk "ts" wCfg1 [⟨"US-MA", "Massachusetts", [], none⟩]).regions.length =
      ([⟨"US-MA", "Massachusetts"⟩] : List Region).length ∧
    (RunOutput.mk "ts" wCfg1 [⟨"US-MA", "Massachusetts", [], none⟩]).regions.map
        RegionEntry.code = ([⟨"US-MA", "Massachusetts"⟩] : List Region).map Region.code ∧
    (RunOutput.mk "ts" wCfg1 [⟨"US-MA", "Massachusetts", [], none⟩]).regions.map
        RegionEntry.name = ([⟨"US-MA", "Massachusetts"⟩] : List Region).map Region.name :=
  C1_region_results_match_config (some "k") wCfgText1 "ts" witHttpOk
    ⟨"ts", wCfg1, [⟨"US-MA", "Massachusetts", [], none⟩]⟩ wCfg1
    [⟨"US-MA", "Massachusetts"⟩] (by decide) (by decide) rfl

/-! ## Occurrence analysis for text with one interpolated hole -/

/-- `agreePrefix p xs` is false exactly when `p` disagrees with `xs` on
their common length — in which case `p` cannot be a prefix of `xs`
extended by anything. -/
def agreePrefix : List Char → List Char → Bool
  | [], _ => true
  | _ :: _, [] => true
  | p :: ps, x :: xs => p == x && agreePrefix ps xs

theorem agreePrefix_of_prefix_append :
    ∀ (p xs ys : List Char), p <+: xs ++ ys → agreePrefix p xs = true := by
  intro p
  induction p with
  | nil => intro xs ys _; cases xs <;> rfl
  | cons a ps ih =>
    intro xs ys hp
    cases xs with
    | nil => rfl
    | cons x xs2 =>
      rw [List.cons_append, List.cons_prefix_cons] at hp
      simp only [agreePrefix, Bool.and_eq_true, beq_iff_eq]
      exact ⟨hp.1, ih xs2 ys hp.2⟩

theorem infix_iff_prefix_drop (pat s : List Char) :
    pat <:+: s ↔ ∃ i, i ≤ s.length ∧ pat <+: s.drop i := by
  constructor
  · rintro ⟨a, b, rfl⟩
    refine ⟨a.length, by simp, ?_⟩
    rw [List.append_assoc, List.drop_left]
    exact ⟨b, rfl⟩
  · rintro ⟨i, hi, t, ht⟩
    refine ⟨s.take i, t, ?_⟩
    rw [List.append_assoc, ht, List.take_append_drop]

/-- No occurrence of `pat` in `l1 ++ mid ++ l2` when: `pat` starts with a
character not in `mid`, no start position inside `l1` is compatible, and
`pat` occurs nowhere in `l2`. -/
theorem no_occurs_three (pat l1 mid l2 : List Char) (c : Char)
    (hhead : pat.head? = some c) (hmid : c ∉ mid)
    (h1 : ∀ i, i < l1.length → agreePrefix pat (l1.drop i) = false)
    (h2 : ∀ j, j < l2.length → ¬ pat <+: l2.drop j) :
    ¬ pat <:+: (l1 ++ (mid ++ l2)) := by
  intro hocc
  obtain ⟨i, hi, hp⟩ := (infix_iff_prefix_drop pat _).mp hocc
  by_cases hil1 : i < l1.length
  · rw [List.drop_append_of_le_length (Nat.le_of_lt hil1)] at hp
    have := agreePrefix_of_prefix_append pat (l1.drop i) (mid ++ l2) hp
    rw [h1 i hil1] at this
    exact Bool.noConfusion this
  · push_neg at hil1
    rw [List.drop_append_eq_append_drop, List.drop_eq_nil_of_le hil1,
      List.nil_append] at hp
    set k := i - l1.length with hk
    by_cases hkm : k < mid.length
    · rw [List.drop_append_of_le_length (Nat.le_of_lt hkm)] at hp
      obtain ⟨m, ms, hms⟩ : ∃ m ms, mid.drop k = m :: ms := by
        cases hd : mid.drop k with
        | nil =>
          have hlen : mid.length ≤ k := by
            have := congrArg List.length hd
            simp at this
            omega
          exact absurd hlen (by omega)
        | cons m ms => exact ⟨m, ms, rfl⟩
      rw [hms] at hp
      cases pat with
      | nil => exact Option.noConfusion hhead
      | cons p0 prest =>
        have hc : p0 = c := by simpa using hhead
        rw [List.cons_append, List.cons_prefix_cons] at hp
        apply hmid
        have hmmem : m ∈ mid := by
          apply List.drop_subset k mid
          rw [hms]
          exact List.mem_cons_self m ms
        rw [← hc, hp.1]
        exact hmmem
    · push_neg at hkm
      rw [List.drop_append_eq_append_drop, List.drop_eq_nil_of_le hkm,
        List.nil_append] at hp
      by_cases hl2 : k - mid.length < l2.length
      · exact h2 _ hl2 hp
      · push_neg at hl2
        rw [List.drop_eq_nil_of_le hl2] at hp
        have := List.prefix_nil.mp hp
        rw [this] at hhead
        exact Option.noConfusion hhead

/-! ## Claim C8 -/

/-- Counterexample for Claim C8 as stated: a region with zero
observations whose *name* itself carries the markup — the emitted section
then does contain a `<div class="observation">`. -/
theorem C8_counterexample :
    (RegionEntry.mk "US" "<div class=\"observation\"></div>" [] none).observations = [] ∧
    strOccurs (sectionHtml ⟨"US", "<div class=\"observation\"></div>", [], none⟩)
      "<div class=\"observation\">" := by
  refine ⟨rfl, ?_⟩
  rw [strOccurs_iff_occScan]
  decide

/-- Claim C8 (amended): for a region with zero observations whose name
does not itself contain a `<` character, the emitted section contains the
literal placeholder `No notable sightings in the past week.` and no
`<div class="observation">` element. -/
theorem C8_empty_region_placeholder_no_observation_div (e : RegionEntry)
    (hobs : e.observations = [])
    (hname : '<' ∉ e.name.data) :
    strOccurs (sectionHtml e) "No notable sightings in the past week." ∧
    ¬ strOccurs (sectionHtml e) "<div class=\"observation\">" := by
  constructor
  · unfold sectionHtml
    rw [hobs]
    exact strOccurs_append _ _ _ _ ⟨"<p>", "</p>", by decide⟩
  · intro hocc
    rw [strOccurs_iff] at hocc
    have hdata : (sectionHtml e).data =
        sectionPre.data ++ (e.name.data ++
          (sectionMid ++ obsHtml [] ++ sectionPost).data) := by
      unfold sectionHtml
      rw [hobs]
      simp [List.append_assoc]
    rw [hdata] at hocc
    exact no_occurs_three _ _ _ _ '<' (by decide) hname (by decide) (by decide) hocc

/-- Witness for the amended C8 at a concrete ordinary region name. -/
theorem C8_empty_region_placeholder_witness :
    strOccurs (sectionHtml ⟨"US-CA", "California", [], some "err"⟩)
      "No notable sightings in the past week." ∧
    ¬ strOccurs (sectionHtml ⟨"US-CA", "California", [], some "err"⟩)
      "<div class=\"observation\">" :=
  C8_empty_region_placeholder_no_observation_div
    ⟨"US-CA", "California", [], some "err"⟩ rfl (by decide)

/-! ## Occurrence plumbing through `generate_html` -/

theorem stringDataExt (a b : String) (h : a.data = b.data) : a = b :=
  congrArg String.mk h

theorem strOccurs_trans (s m x : String) (h1 : strOccurs s m) (h2 : strOccurs m x) :
    strOccurs s x := by
  obtain ⟨a, b, rfl⟩ := h1
  exact strOccurs_append a m b x h2

theorem strOccurs_foldl_acc {α : Type} (f : α → String) (x : String) :
    ∀ (l : List α) (acc : String), strOccurs acc x →
      strOccurs (l.foldl (fun acc e => acc ++ f e) acc) x := by
  intro l
  induction l with
  | nil => intro acc h; exact h
  | cons e es ih =>
    intro acc h
    rw [List.foldl_cons]
    apply ih
    obtain ⟨p, q, rfl⟩ := h
    exact ⟨p, q ++ f e, stringDataExt _ _ (by simp [List.append_assoc])⟩

theorem strOccurs_foldl_mem {α : Type} (f : α → String) (a : α) :
    ∀ (l : List α), a ∈ l → ∀ acc : String,
      strOccurs (l.foldl (fun acc x => acc ++ f x) acc) (f a) := by
  intro l
  induction l with
  | nil => intro ha; exact absurd ha (by simp)
  | cons e es ih =>
    intro ha acc
    rw [List.mem_cons] at ha
    rw [List.foldl_cons]
    rcases ha with rfl | ha
    · apply strOccurs_foldl_acc
      exact ⟨acc, "", stringDataExt _ _ (by simp)⟩
    · exact ih ha (acc ++ f e)

theorem species_link_occurs (obs : JObj) (sp : String)
    (h : obs.get? "species" = some (.str sp)) :
    strOccurs (species_link obs) sp := by
  have hsp : pyStr (pyIdx obs "species") = sp := by simp [pyIdx, h, pyStr]
  unfold species_link
  split
  · exact ⟨"<a href=\"" ++ pyStr (pyIdx obs "species_url") ++ "\" target=\"_blank\">",
      "</a>", stringDataExt _ _ (by simp [hsp, List.append_assoc])⟩
  · exact ⟨"", "", stringDataExt _ _ (by simp [hsp])⟩

theorem obsItemHtml_occurs_species_link (obs : JObj) :
    strOccurs (obsItemHtml obs) (species_link obs) :=
  ⟨obsL1,
   obsL2 ++ pyStr (pyIdx obs "scientific_name") ++ obsL3 ++ count_str obs ++
     obsL4 ++ pyStr (pyIdx obs "location") ++ obsL5 ++ pyStr (pyIdx obs "date") ++
     obsL6 ++ checklist_link obs ++ obsL7,
   stringDataExt _ _ (by simp [obsItemHtml, List.append_assoc])⟩

theorem obsItemHtml_occurs_sci (obs : JObj) (sci : String)
    (h : obs.get? "scientific_name" = some (.str sci)) :
    strOccurs (obsItemHtml obs) sci := by
  have hv : pyStr (pyIdx obs "scientific_name") = sci := by simp [pyIdx, h, pyStr]
  refine ⟨obsL1 ++ species_link obs ++ obsL2,
    obsL3 ++ count_str obs ++ obsL4 ++ pyStr (pyIdx obs "location") ++ obsL5 ++
      pyStr (pyIdx obs "date") ++ obsL6 ++ checklist_link obs ++ obsL7,
    stringDataExt _ _ ?_⟩
  simp [obsItemHtml, hv, List.append_assoc]

theorem obsItemHtml_occurs_loc (obs : JObj) (loc : String)
    (h : obs.get? "location" = some (.str loc)) :
    strOccurs (obsItemHtml obs) loc := by
  have hv : pyStr (pyIdx obs "location") = loc := by simp [pyIdx, h, pyStr]
  refine ⟨obsL1 ++ species_link obs ++ obsL2 ++ pyStr (pyIdx obs "scientific_name") ++
      obsL3 ++ count_str obs ++ obsL4,
    obsL5 ++ pyStr (pyIdx obs "date") ++ obsL6 ++ checklist_link obs ++ obsL7,
    stringDataExt _ _ ?_⟩
  simp [obsItemHtml, hv, List.append_assoc]

theorem obsItemHtml_occurs_date (obs : JObj) (dt : String)
    (h : obs.get? "date" = some (.str dt)) :
    strOccurs (obsItemHtml obs) dt := by
  have hv : pyStr (pyIdx obs "date") = dt := by simp [pyIdx, h, pyStr]
  refine ⟨obsL1 ++ species_link obs ++ obsL2 ++ pyStr (pyIdx obs "scientific_name") ++
      obsL3 ++ count_str obs ++ obsL4 ++ pyStr (pyIdx obs "location") ++ obsL5,
    obsL6 ++ checklist_link obs ++ obsL7,
    stringDataExt _ _ ?_⟩
  simp [obsItemHtml, hv, List.append_assoc]

theorem obsHtml_occurs (l : List JObj) (obs : JObj) (ho : obs ∈ l) (x : String)
    (h : strOccurs (obsItemHtml obs) x) : strOccurs (obsHtml l) x := by
  unfold obsHtml
  rw [if_neg (by intro hnil; rw [hnil] at ho; exact absurd ho (by simp))]
  exact strOccurs_trans _ _ _ (strOccurs_foldl_mem obsItemHtml obs l ho "") h

theorem sectionHtml_occurs (e : RegionEntry) (x : String)
    (h : strOccurs (obsHtml e.observations) x) : strOccurs (sectionHtml e) x := by
  apply strOccurs_trans _ (obsHtml e.observations) _ _ h
  exact ⟨sectionPre ++ e.name ++ sectionMid, sectionPost,
    stringDataExt _ _ (by simp [sectionHtml, List.append_assoc])⟩

theorem generate_html_occurs (entries : List RegionEntry) (config : JValue)
    (ts : String) (e : RegionEntry) (he : e ∈ entries) (x : String)
    (h : strOccurs (sectionHtml e) x) :
    strOccurs (generate_html entries config ts) x := by
  apply strOccurs_trans _
    (entries.foldl (fun acc e => acc ++ sectionHtml e) "") _ _
    (strOccurs_trans _ (sectionHtml e) _ (strOccurs_foldl_mem sectionHtml e entries he "") h)
  exact ⟨htmlDocPre ++ ts ++ htmlDocMid, htmlDocPost,
    stringDataExt _ _ (by simp [generate_html, List.append_assoc])⟩

/-! ## Claim C6 -/

def ce6Obs : JObj := format_observation (.cons "userDisplayName" (.str "zqzq") .nil)

/-- No occurrence of a non-empty `pat` across `a ++ b` when no start
position inside `a` is even compatible with `pat` and `pat` does not
occur in `b`. -/
theorem no_occurs_append (pat a b : List Char) (hne : pat ≠ [])
    (ha : ∀ j, j < a.length → agreePrefix pat (a.drop j) = false)
    (hb : ¬ pat <:+: b) : ¬ pat <:+: (a ++ b) := by
  intro hocc
  obtain ⟨i, hi, hp⟩ := (infix_iff_prefix_drop pat _).mp hocc
  by_cases hia : i < a.length
  · rw [List.drop_append_of_le_length (Nat.le_of_lt hia)] at hp
    have := agreePrefix_of_prefix_append pat (a.drop i) b hp
    rw [ha i hia] at this
    exact Bool.noConfusion this
  · push_neg at hia
    rw [List.drop_append_eq_append_drop, List.drop_eq_nil_of_le hia,
      List.nil_append] at hp
    by_cases hib : i - a.length < b.length
    · exact hb ((infix_iff_prefix_drop pat b).mpr ⟨i - a.length, Nat.le_of_lt hib, hp⟩)
    · push_neg at hib
      rw [List.drop_eq_nil_of_le hib] at hp
      exact hne (List.prefix_nil.mp hp)

/-- Executable check that no start position inside `x` is compatible with
`pat` (kernel-friendly: no use of `List.length`). -/
def noCompatStart (pat : List Char) : List Char → Bool
  | [] => true
  | c :: cs => !agreePrefix pat (c :: cs) && noCompatStart pat cs

theorem noCompatStart_drop (pat : List Char) :
    ∀ x : List Char, noCompatStart pat x = true →
      ∀ j, j < x.length → agreePrefix pat (x.drop j) = false := by
  intro x
  induction x with
  | nil => intro _ j hj; simp at hj
  | cons c cs ih =>
    intro h j hj
    simp only [noCompatStart, Bool.and_eq_true, Bool.not_eq_true'] at h
    cases j with
    | zero => exact h.1
    | succ j =>
      rw [List.drop_succ_cons]
      exact ih h.2 j (by simpa using hj)

/-- No occurrence of a non-empty `pat` in the concatenation of a list of
pieces in which no start position of any piece is compatible with `pat`. -/
theorem no_occurs_chain (pat : List Char) (hne : pat ≠ []) :
    ∀ pieces : List (List Char),
      (∀ x ∈ pieces, noCompatStart pat x = true) →
      ¬ pat <:+: pieces.foldr (· ++ ·) [] := by
  intro pieces
  induction pieces with
  | nil =>
    intro _ h
    rw [List.foldr_nil, List.infix_nil] at h
    exact hne h
  | cons x xs ih =>
    intro hall
    rw [List.foldr_cons]
    exact no_occurs_append pat x _ hne (noCompatStart_drop pat x (hall x (by simp)))
      (ih (fun y hy => hall y (by simp [hy])))

set_option maxHeartbeats 3200000 in
/-- Counterexample for Claim C6 as stated: the observer field is *not*
inserted into the HTML document at all — `generate_html` never renders
it.  Here the observer value `zqzq` of the only observation occurs
nowhere in the generated page. -/
theorem C6_counterexample :
    ce6Obs.get? "observer" = some (.str "zqzq") ∧
    ¬ strOccurs (generate_html [⟨"US", "USA", [ce6Obs], none⟩] .null "ts") "zqzq" := by
  refine ⟨by decide, ?_⟩
  intro h
  rw [strOccurs_iff] at h
  have hdata : (generate_html [(⟨"US", "USA", [ce6Obs], none⟩ : RegionEntry)] .null "ts").data =
      ([htmlDocPre.data, "ts".data, htmlDocMid.data,
        sectionPre.data, "USA".data, sectionMid.data,
        obsL1.data, (species_link ce6Obs).data, obsL2.data,
        (pyStr (pyIdx ce6Obs "scientific_name")).data, obsL3.data,
        (count_str ce6Obs).data, obsL4.data,
        (pyStr (pyIdx ce6Obs "location")).data, obsL5.data,
        (pyStr (pyIdx ce6Obs "date")).data, obsL6.data,
        (checklist_link ce6Obs).data, obsL7.data,
        sectionPost.data, htmlDocPost.data] :
        List (List Char)).foldr (· ++ ·) [] := by
    show (htmlDocPre ++ "ts" ++ htmlDocMid ++
      ([(⟨"US", "USA", [ce6Obs], none⟩ : RegionEntry)].foldl
        (fun acc e => acc ++ sectionHtml e) "") ++ htmlDocPost).data = _
    rw [List.foldl_cons, List.foldl_nil]
    show (htmlDocPre ++ "ts" ++ htmlDocMid ++
      ("" ++ (sectionPre ++ "USA" ++ sectionMid ++ obsHtml [ce6Obs] ++ sectionPost)) ++
      htmlDocPost).data = _
    have hobs : obsHtml [ce6Obs] = "" ++ obsItemHtml ce6Obs := by
      rw [obsHtml, if_neg (by simp), List.foldl_cons, List.foldl_nil]
    rw [hobs]
    show (htmlDocPre ++ "ts" ++ htmlDocMid ++
      ("" ++ (sectionPre ++ "USA" ++ sectionMid ++
        ("" ++ (obsL1 ++ species_link ce6Obs ++ obsL2 ++
          pyStr (pyIdx ce6Obs "scientific_name") ++ obsL3 ++ count_str ce6Obs ++
          obsL4 ++ pyStr (pyIdx ce6Obs "location") ++ obsL5 ++
          pyStr (pyIdx ce6Obs "date") ++ obsL6 ++ checklist_link ce6Obs ++ obsL7)) ++
        sectionPost)) ++ htmlDocPost).data = _
    have hemp : "".data = ([] : List Char) := rfl
    simp only [String.data_append, hemp, List.nil_append, List.foldr_cons,
      List.foldr_nil, List.append_nil, List.append_assoc]
  rw [hdata] at h
  exact no_occurs_chain "zqzq".data (by decide) _ (by decide) h

/-- Claim C6 (amended): `generate_html` escapes nothing — the `species`,
`scientific_name`, `location` and `date` values of every rendered
observation are inserted into the document character for character
(including markup-significant characters); the `observer` field, by
contrast, is never rendered. -/
theorem C6_fields_inserted_verbatim
    (entries : List RegionEntry) (config : JValue) (ts : String)
    (e : RegionEntry) (obs : JObj)
    (he : e ∈ entries) (ho : obs ∈ e.observations)
    (sp sci loc dt : String)
    (hsp : obs.get? "species" = some (.str sp))
    (hsci : obs.get? "scientific_name" = some (.str sci))
    (hloc : obs.get? "location" = some (.str loc))
    (hdt : obs.get? "date" = some (.str dt)) :
    strOccurs (generate_html entries config ts) sp ∧
    strOccurs (generate_html entries config ts) sci ∧
    strOccurs (generate_html entries config ts) loc ∧
    strOccurs (generate_html entries config ts) dt := by
  refine ⟨?_, ?_, ?_, ?_⟩ <;>
    apply generate_html_occurs entries config ts e he <;>
    apply sectionHtml_occurs <;>
    apply obsHtml_occurs e.observations obs ho
  · exact strOccurs_trans _ _ _ (obsItemHtml_occurs_species_link obs)
      (species_link_occurs obs sp hsp)
  · exact obsItemHtml_occurs_sci obs sci hsci
  · exact obsItemHtml_occurs_loc obs loc hloc
  · exact obsItemHtml_occurs_date obs dt hdt

def w6raw : JObj :=
  .cons "comName" (.str "So<b>ra") (.cons "sciName" (.str "Porzana carolina")
    (.cons "locName" (.str "Plum <Island>") (.cons "obsDt" (.str "2025-10-01") .nil)))

/-- Witness for the amended C6: a species name and location containing raw
angle brackets are inserted verbatim into the page. -/
theorem C6_fields_inserted_verbatim_witness :
    strOccurs (generate_html [⟨"US-MA", "Massachusetts",
      [format_observation w6raw], none⟩] .null "ts") "So<b>ra" ∧
    strOccurs (generate_html [⟨"US-MA", "Massachusetts",
      [format_observation w6raw], none⟩] .null "ts") "Porzana carolina" ∧
    strOccurs (generate_html [⟨"US-MA", "Massachusetts",
      [format_observation w6raw], none⟩] .null "ts") "Plum <Island>" ∧
    strOccurs (generate_html [⟨"US-MA", "Massachusetts",
      [format_observation w6raw], none⟩] .null "ts") "2025-10-01" :=
  C6_fields_inserted_verbatim
    [⟨"US-MA", "Massachusetts", [format_observation w6raw], none⟩] .null "ts"
    ⟨"US-MA", "Massachusetts", [format_observation w6raw], none⟩
    (format_observation w6raw) (by simp) (by simp)
    "So<b>ra" "Porzana carolina" "Plum <Island>" "2025-10-01"
    (by decide) (by decide) (by decide) (by decide)

/-- Witness for the amended C5 at a concrete descriptor without
`days_back`/`max_results`. -/
theorem C5_defaults_applied_at_use_witness :
    Scraper.main (some "k") "\x7b\"regions\": []\x7d" witHttpOk "ts" =
      .ok ⟨"ts", .obj (.cons "regions" (.arr .nil) .nil), []⟩ := by
  have h := C5_defaults_applied_at_use "k" "\x7b\"regions\": []\x7d" "ts" witHttpOk
    (.cons "regions" (.arr .nil) .nil) [] (by decide) (by decide) (by decide)
    (by decide) (by decide)
  simpa using h

/-! ## Round trip: character and hex-digit level -/

theorem charToNat_inj (c d : Char) (h : c.toNat = d.toNat) : c = d :=
  Char.ext (UInt32.toNat.inj h)

theorem char_toNat_valid (c : Char) : c.toNat.isValidChar := c.valid

theorem toNat_Char_ofNat (m : Nat) (h : m.isValidChar) : (Char.ofNat m).toNat = m := by
  unfold Char.ofNat
  rw [dif_pos h]
  unfold Char.ofNatAux
  simp [Char.toNat, UInt32.toNat]

theorem fromHexDigit_hexDigitChar (d : Nat) (h : d < 16) :
    fromHexDigit (hexDigitChar d) = some d := by
  interval_cases d <;> decide

theorem hexDigitChar_ne_quote (d : Nat) (h : d < 16) : hexDigitChar d ≠ '"' := by
  interval_cases d <;> decide

theorem readHex4_hex4 (n : Nat) (h : n < 65536) (rest : List Char) :
    readHex4 (hex4 n ++ rest) = some (n, rest) := by
  have h1 : n / 4096 % 16 < 16 := Nat.mod_lt _ (by omega)
  have h2 : n / 256 % 16 < 16 := Nat.mod_lt _ (by omega)
  have h3 : n / 16 % 16 < 16 := Nat.mod_lt _ (by omega)
  have h4 : n % 16 < 16 := Nat.mod_lt _ (by omega)
  show readHex4 (hexDigitChar (n / 4096 % 16) :: hexDigitChar (n / 256 % 16) ::
    hexDigitChar (n / 16 % 16) :: hexDigitChar (n % 16) :: rest) = some (n, rest)
  unfold readHex4
  simp only [fromHexDigit_hexDigitChar _ h1, fromHexDigit_hexDigitChar _ h2,
    fromHexDigit_hexDigitChar _ h3, fromHexDigit_hexDigitChar _ h4]
  have harith : n / 4096 % 16 * 4096 + n / 256 % 16 * 256 + n / 16 % 16 * 16 + n % 16 = n := by
    omega
  rw [harith]

theorem parseUEsc_bmp (n : Nat) (h : n < 65536)
    (h1 : ¬ (55296 ≤ n ∧ n ≤ 56319)) (h2 : ¬ (56320 ≤ n ∧ n ≤ 57343))
    (rest : List Char) :
    parseUEsc (hex4 n ++ rest) = some (Char.ofNat n, rest) := by
  unfold parseUEsc
  simp only [readHex4_hex4 n h]
  rw [if_neg h1, if_neg h2]

theorem parseUEsc_sur (hi lo : Nat)
    (hhi : 55296 ≤ hi ∧ hi ≤ 56319) (hlo : 56320 ≤ lo ∧ lo ≤ 57343)
    (rest : List Char) :
    parseUEsc (hex4 hi ++ ('\\' :: 'u' :: (hex4 lo ++ rest))) =
      some (Char.ofNat (65536 + (hi - 55296) * 1024 + (lo - 56320)), rest) := by
  unfold parseUEsc
  simp only [readHex4_hex4 hi (by omega)]
  rw [if_pos hhi]
  show parseLowSur hi ('\\' :: 'u' :: (hex4 lo ++ rest)) = _
  simp only [parseLowSur, eq_self_iff_true, if_true, readHex4_hex4 lo (by omega)]
  rw [if_pos hlo]

/-- A `u`-escape followed by a low-surrogate escape decodes to the astral
character the pair encodes. -/
theorem parseEsc_u_surrogates (c : Char) (hi lo : Nat)
    (hhi1 : 55296 ≤ hi ∧ hi ≤ 56319) (hlo1 : 56320 ≤ lo ∧ lo ≤ 57343)
    (hval1 : 65536 + (hi - 55296) * 1024 + (lo - 56320) = c.toNat) (rest : List Char) :
    parseEsc (('u' :: (hex4 hi ++ '\\' :: 'u' :: hex4 lo)) ++ rest) = some (c, rest) := by
  show parseUEsc ((hex4 hi ++ '\\' :: 'u' :: hex4 lo) ++ rest) = some (c, rest)
  rw [List.append_assoc, List.cons_append, List.cons_append,
    parseUEsc_sur hi lo hhi1 hlo1 rest, hval1, Char.ofNat_toNat]

/-- Every way `escChar` renders a character is read back as that
character: either it is a plain printable character, or it is an escape
sequence that `parseEsc` decodes to it. -/
theorem escChar_cases (c : Char) :
    (escChar c = [c] ∧ c ≠ '"' ∧ c ≠ '\\' ∧ 32 ≤ c.toNat) ∨
    (∃ t, escChar c = '\\' :: t ∧ ∀ rest, parseEsc (t ++ rest) = some (c, rest)) := by
  unfold escChar
  by_cases h1 : c = '"'
  · right; rw [if_pos h1]; exact ⟨['"'], rfl, fun rest => by rw [h1]; rfl⟩
  rw [if_neg h1]
  by_cases h2 : c = '\\'
  · right; rw [if_pos h2]; exact ⟨['\\'], rfl, fun rest => by rw [h2]; rfl⟩
  rw [if_neg h2]
  by_cases h3 : c = '\n'
  · right; rw [if_pos h3]; exact ⟨['n'], rfl, fun rest => by rw [h3]; rfl⟩
  rw [if_neg h3]
  by_cases h4 : c = '\r'
  · right; rw [if_pos h4]; exact ⟨['r'], rfl, fun rest => by rw [h4]; rfl⟩
  rw [if_neg h4]
  by_cases h5 : c = '\t'
  · right; rw [if_pos h5]; exact ⟨['t'], rfl, fun rest => by rw [h5]; rfl⟩
  rw [if_neg h5]
  by_cases h6 : c.toNat = 8
  · right; rw [if_pos h6]
    refine ⟨['b'], rfl, fun rest => ?_⟩
    have hc : c = Char.ofNat 8 := charToNat_inj _ _ (by rw [h6]; decide)
    rw [hc]; rfl
  rw [if_neg h6]
  by_cases h7 : c.toNat = 12
  · right; rw [if_pos h7]
    refine ⟨['f'], rfl, fun rest => ?_⟩
    have hc : c = Char.ofNat 12 := charToNat_inj _ _ (by rw [h7]; decide)
    rw [hc]; rfl
  rw [if_neg h7]
  by_cases h8 : c.toNat < 32
  · right; rw [if_pos h8]
    refine ⟨'u' :: hex4 c.toNat, rfl, fun rest => ?_⟩
    show parseUEsc (hex4 c.toNat ++ rest) = some (c, rest)
    rw [parseUEsc_bmp c.toNat (by omega) (by omega) (by omega) rest, Char.ofNat_toNat]
  rw [if_neg h8]
  by_cases h9 : c.toNat ≤ 126
  · left; rw [if_pos h9]; exact ⟨rfl, h1, h2, by omega⟩
  rw [if_neg h9]
  have hval := char_toNat_valid c
  by_cases h10 : c.toNat ≤ 65535
  · right; rw [if_pos h10]
    refine ⟨'u' :: hex4 c.toNat, rfl, fun rest => ?_⟩
    show parseUEsc (hex4 c.toNat ++ rest) = some (c, rest)
    have hns1 : ¬ (55296 ≤ c.toNat ∧ c.toNat ≤ 56319) := by
      rcases hval with h | ⟨h, -⟩ <;> omega
    have hns2 : ¬ (56320 ≤ c.toNat ∧ c.toNat ≤ 57343) := by
      rcases hval with h | ⟨h, -⟩ <;> omega
    rw [parseUEsc_bmp c.toNat (by omega) hns1 hns2 rest, Char.ofNat_toNat]
  · right; rw [if_neg h10]
    have hmlt : c.toNat - 65536 < 1048576 := by
      rcases hval with h | ⟨-, h⟩ <;> omega
    have hmod := Nat.mod_lt (c.toNat - 65536) (show 0 < 1024 by omega)
    refine ⟨'u' :: (hex4 (55296 + (c.toNat - 65536) / 1024) ++
        '\\' :: 'u' :: hex4 (56320 + (c.toNat - 65536) % 1024)), rfl, fun rest => ?_⟩
    exact parseEsc_u_surrogates c _ _ ⟨by omega, by omega⟩ ⟨by omega, by omega⟩
      (by omega) rest

/-! ## Round trip: string literals -/

theorem escChar_length_pos (c : Char) : 1 ≤ (escChar c).length := by
  rcases escChar_cases c with ⟨h, -, -, -⟩ | ⟨t, h, -⟩ <;> rw [h] <;> simp

theorem escChars_length_ge (s : List Char) : s.length ≤ (escChars s).length := by
  induction s with
  | nil => simp [escChars]
  | cons c cs ih =>
    have := escChar_length_pos c
    simp only [escChars, List.length_append, List.length_cons]
    omega

theorem parseStrChars_escChars (s : List Char) : ∀ fuel, s.length + 1 ≤ fuel →
    ∀ rest, parseStrChars fuel (escChars s ++ '"' :: rest) = some (s, rest) := by
  induction s with
  | nil =>
    intro fuel hf rest
    obtain ⟨f, rfl⟩ : ∃ f, fuel = f + 1 := ⟨fuel - 1, by omega⟩
    show parseStrChars (f + 1) ('"' :: rest) = some ([], rest)
    rfl
  | cons c cs ih =>
    intro fuel hf rest
    obtain ⟨f, rfl⟩ : ∃ f, fuel = f + 1 := ⟨fuel - 1, by omega⟩
    have hcs : cs.length + 1 ≤ f := by
      simp only [List.length_cons] at hf; omega
    rcases escChar_cases c with ⟨h, hq, hb, hge⟩ | ⟨t, h, hp⟩
    · show parseStrChars (f + 1) (escChar c ++ escChars cs ++ '"' :: rest) = _
      rw [h]
      show parseStrChars (f + 1) (c :: (escChars cs ++ '"' :: rest)) = _
      simp only [parseStrChars]
      rw [if_neg hq, if_neg hb, if_pos hge, ih f hcs rest]
    · show parseStrChars (f + 1) (escChar c ++ escChars cs ++ '"' :: rest) = _
      rw [h]
      simp only [List.cons_append, List.append_assoc]
      simp only [parseStrChars]
      rw [if_pos trivial]
      simp only [hp (escChars cs ++ '"' :: rest), ih f hcs rest]
      rw [if_neg (by decide : ¬('\\' : Char) = '"')]

theorem parseStrVal_escChars (s : String) (rest : List Char) :
    parseStrVal (escChars s.data ++ '"' :: rest) = some (.str s, rest) := by
  unfold parseStrVal
  have hlen : s.data.length + 1 ≤ (escChars s.data ++ '"' :: rest).length + 1 := by
    have := escChars_length_ge s.data
    simp only [List.length_append, List.length_cons]
    omega
  rw [parseStrChars_escChars s.data _ hlen rest]

/-! ## Round trip: integer literals -/

theorem toDigitChar_toNat (n : Nat) (h : n < 10) : (toDigitChar n).toNat = 48 + n := by
  interval_cases n <;> decide

theorem natToCharsF_digits (fuel : Nat) : ∀ n, ∀ c ∈ natToCharsF fuel n,
    48 ≤ c.toNat ∧ c.toNat ≤ 57 := by
  induction fuel with
  | zero => intro n c hc; simp [natToCharsF] at hc
  | succ f ih =>
    intro n c hc
    by_cases h : n < 10
    · simp only [natToCharsF, if_pos h, List.mem_singleton] at hc
      subst hc
      rw [toDigitChar_toNat n h]
      omega
    · simp only [natToCharsF, if_neg h, List.mem_append, List.mem_singleton] at hc
      rcases hc with hc | hc
      · exact ih (n / 10) c hc
      · subst hc
        rw [toDigitChar_toNat (n % 10) (Nat.mod_lt _ (by omega))]
        have := Nat.mod_lt n (show 0 < 10 by omega)
        omega

theorem natToCharsF_ne_nil_f (fuel n : Nat) (h : 0 < fuel) : natToCharsF fuel n ≠ [] := by
  obtain ⟨f, rfl⟩ : ∃ f, fuel = f + 1 := ⟨fuel - 1, by omega⟩
  by_cases h10 : n < 10
  · simp [natToCharsF, if_pos h10]
  · simp [natToCharsF, if_neg h10]

theorem foldl_digits_natToCharsF (fuel : Nat) : ∀ n, n < fuel → ∀ acc,
    List.foldl (fun a c => a * 10 + (c.toNat - 48)) acc (natToCharsF fuel n) =
      acc * 10 ^ (natToCharsF fuel n).length + n := by
  induction fuel with
  | zero => intro n h; omega
  | succ f ih =>
    intro n h acc
    by_cases h10 : n < 10
    · simp only [natToCharsF, if_pos h10, List.foldl_cons, List.foldl_nil,
        List.length_cons, List.length_nil]
      rw [toDigitChar_toNat n h10]
      simp only [Nat.zero_add, pow_one]
      omega
    · have hdiv : n / 10 < f := by omega
      simp only [natToCharsF, if_neg h10, List.foldl_append, List.foldl_cons,
        List.foldl_nil, List.length_append, List.length_cons, List.length_nil]
      rw [ih (n / 10) hdiv acc, toDigitChar_toNat (n % 10) (Nat.mod_lt _ (by omega))]
      simp only [Nat.zero_add]
      rw [pow_succ, ← Nat.mul_assoc]
      generalize acc * 10 ^ (natToCharsF f (n / 10)).length = q
      omega

/-- The next input character (if any) is not a decimal digit, so a number
literal ending there is parsed completely. -/
def numSafe : List Char → Prop
  | [] => True
  | c :: _ => ¬ (48 ≤ c.toNat ∧ c.toNat ≤ 57)

theorem parseDigitsAux_stop (rest : List Char) (h : numSafe rest) (acc : Nat) :
    parseDigitsAux acc rest = (acc, rest) := by
  cases rest with
  | nil => rfl
  | cons c cs =>
    simp only [parseDigitsAux]
    rw [if_neg h]

theorem parseDigitsAux_append (ds : List Char)
    (hd : ∀ c ∈ ds, 48 ≤ c.toNat ∧ c.toNat ≤ 57) : ∀ acc rest,
    parseDigitsAux acc (ds ++ rest) =
      parseDigitsAux (List.foldl (fun a c => a * 10 + (c.toNat - 48)) acc ds) rest := by
  induction ds with
  | nil => intro acc rest; rfl
  | cons c cs ih =>
    intro acc rest
    show parseDigitsAux acc (c :: (cs ++ rest)) = _
    simp only [parseDigitsAux, List.foldl_cons]
    rw [if_pos (hd c (List.mem_cons_self c cs))]
    exact ih (fun d hdm => hd d (List.mem_cons_of_mem c hdm)) _ rest

theorem natToChars_head (n : Nat) :
    ∃ c cs, natToChars n = c :: cs ∧ 48 ≤ c.toNat ∧ c.toNat ≤ 57 := by
  have hne := natToCharsF_ne_nil_f (n + 1) n (by omega)
  obtain ⟨c, cs, hc⟩ : ∃ c cs, natToCharsF (n + 1) n = c :: cs := by
    cases he : natToCharsF (n + 1) n with
    | nil => exact absurd he hne
    | cons c cs => exact ⟨c, cs, rfl⟩
  refine ⟨c, cs, hc, ?_⟩
  exact natToCharsF_digits (n + 1) n c (by rw [hc]; exact List.mem_cons_self c cs)

theorem parseNat_natToChars (n : Nat) (rest : List Char) (h : numSafe rest) :
    parseNat (natToChars n ++ rest) = some (n, rest) := by
  obtain ⟨c, cs, hc, hd1, hd2⟩ := natToChars_head n
  have hmem : ∀ d ∈ natToChars n, 48 ≤ d.toNat ∧ d.toNat ≤ 57 :=
    fun d hd => natToCharsF_digits (n + 1) n d hd
  have hfold : List.foldl (fun a c => a * 10 + (c.toNat - 48)) 0 (natToChars n) =
      0 * 10 ^ (natToChars n).length + n :=
    foldl_digits_natToCharsF (n + 1) n (by omega) 0
  rw [hc] at hfold hmem ⊢
  show parseNat (c :: (cs ++ rest)) = some (n, rest)
  simp only [parseNat]
  rw [if_pos ⟨hd1, hd2⟩]
  rw [parseDigitsAux_append cs (fun d hdm => hmem d (List.mem_cons_of_mem c hdm)) _ rest,
    parseDigitsAux_stop rest h]
  simp only [List.foldl_cons] at hfold
  rw [Nat.zero_mul, Nat.zero_add] at hfold
  rw [hfold]
  simp only [Nat.zero_mul, Nat.zero_add]

theorem char_ne_of_range (c : Char) (lo hi : Nat) (h : lo ≤ c.toNat ∧ c.toNat ≤ hi)
    (d : Char) (hd : ¬ (lo ≤ d.toNat ∧ d.toNat ≤ hi)) : c ≠ d :=
  fun he => hd (he ▸ h)

theorem parseIntVal_intToChars (i : Int) (rest : List Char) (h : numSafe rest) :
    parseIntVal (intToChars i ++ rest) = some (.num i, rest) := by
  unfold intToChars
  by_cases hneg : i < 0
  · rw [if_pos hneg]
    simp only [List.cons_append, parseIntVal]
    rw [if_pos trivial, parseNat_natToChars i.natAbs rest h]
    show some (JValue.num (-((i.natAbs : Nat) : Int)), rest) = some (JValue.num i, rest)
    have hi : -((i.natAbs : Nat) : Int) = i := by omega
    rw [hi]
  · rw [if_neg hneg]
    obtain ⟨c, cs, hc, hd1, hd2⟩ := natToChars_head i.natAbs
    rw [hc]
    simp only [List.cons_append, parseIntVal]
    rw [if_neg (char_ne_of_range c 48 57 ⟨hd1, hd2⟩ '-' (by decide))]
    rw [show c :: (cs ++ rest) = natToChars i.natAbs ++ rest from by rw [hc]; rfl]
    rw [parseNat_natToChars i.natAbs rest h]
    show some (JValue.num ((i.natAbs : Nat) : Int), rest) = some (JValue.num i, rest)
    have hi : ((i.natAbs : Nat) : Int) = i := by omega
    rw [hi]

/-! ## Round trip: whitespace and value dispatch -/

theorem skipWs_not_ws (c : Char) (cs : List Char) (h : isWsChar c = false) :
    skipWs (c :: cs) = c :: cs := by
  simp only [skipWs, h]
  rw [if_neg (by simp)]

theorem skipWs_allWs (pre : List Char) (h : ∀ c ∈ pre, isWsChar c = true) :
    ∀ x, skipWs (pre ++ x) = skipWs x := by
  induction pre with
  | nil => intro x; rfl
  | cons c cs ih =>
    intro x
    show skipWs (c :: (cs ++ x)) = skipWs x
    simp only [skipWs]
    rw [if_pos (by rw [h c (List.mem_cons_self c cs)])]
    exact ih (fun d hd => h d (List.mem_cons_of_mem c hd)) x

theorem nlIndent_allWs (n : Nat) : ∀ c ∈ nlIndent n, isWsChar c = true := by
  intro c hc
  simp only [nlIndent, List.mem_cons, List.mem_replicate] at hc
  rcases hc with rfl | ⟨-, rfl⟩ <;> rfl

theorem natToChars_head_not_ws (n : Nat) :
    ∃ c cs, natToChars n = c :: cs ∧ isWsChar c = false ∧ c ≠ ']' ∧ c ≠ '\x7d' := by
  obtain ⟨c, cs, hc, hd1, hd2⟩ := natToChars_head n
  refine ⟨c, cs, hc, ?_, ?_, ?_⟩
  · have h1 : c ≠ ' ' := char_ne_of_range c 48 57 ⟨hd1, hd2⟩ ' ' (by decide)
    have h2 : c ≠ '\t' := char_ne_of_range c 48 57 ⟨hd1, hd2⟩ '\t' (by decide)
    have h3 : c ≠ '\n' := char_ne_of_range c 48 57 ⟨hd1, hd2⟩ '\n' (by decide)
    have h4 : c ≠ '\r' := char_ne_of_range c 48 57 ⟨hd1, hd2⟩ '\r' (by decide)
    simp [isWsChar, h1, h2, h3, h4]
  · exact char_ne_of_range c 48 57 ⟨hd1, hd2⟩ _ (by decide)
  · exact char_ne_of_range c 48 57 ⟨hd1, hd2⟩ _ (by decide)

/-- The first character a value dump emits: never whitespace, never a
closing bracket or brace. -/
theorem dumpV_head (v : JValue) (ind : Nat) :
    ∃ c cs, dumpV v ind = c :: cs ∧ isWsChar c = false ∧ c ≠ ']' ∧ c ≠ '\x7d' := by
  cases v with
  | num i =>
    show ∃ c cs, intToChars i = c :: cs ∧ _
    unfold intToChars
    by_cases hneg : i < 0
    · rw [if_pos hneg]
      refine ⟨'-', _, rfl, ?_, ?_, ?_⟩ <;> decide
    · rw [if_neg hneg]
      exact natToChars_head_not_ws i.natAbs
  | null => refine ⟨'n', _, rfl, ?_, ?_, ?_⟩ <;> decide
  | bool b =>
    cases b
    · refine ⟨'f', _, rfl, ?_, ?_, ?_⟩ <;> decide
    · refine ⟨'t', _, rfl, ?_, ?_, ?_⟩ <;> decide
  | str s => refine ⟨'"', _, rfl, ?_, ?_, ?_⟩ <;> decide
  | arr a =>
    cases a
    · refine ⟨'[', _, rfl, ?_, ?_, ?_⟩ <;> decide
    · refine ⟨'[', _, rfl, ?_, ?_, ?_⟩ <;> decide
  | obj o =>
    cases o
    · refine ⟨'\x7b', _, rfl, ?_, ?_, ?_⟩ <;> decide
    · refine ⟨'\x7b', _, rfl, ?_, ?_, ?_⟩ <;> decide

theorem parseVal_null_branch (fuel : Nat) (cs rest : List Char)
    (h : skipWs cs = 'n' :: rest) :
    parseVal (fuel + 1) cs = parseNullTail rest := by
  simp only [parseVal, h]
  rfl

theorem parseVal_true_branch (fuel : Nat) (cs rest : List Char)
    (h : skipWs cs = 't' :: rest) :
    parseVal (fuel + 1) cs = parseTrueTail rest := by
  simp only [parseVal, h]
  rfl

theorem parseVal_false_branch (fuel : Nat) (cs rest : List Char)
    (h : skipWs cs = 'f' :: rest) :
    parseVal (fuel + 1) cs = parseFalseTail rest := by
  simp only [parseVal, h]
  rfl

theorem parseVal_str_branch (fuel : Nat) (cs rest : List Char)
    (h : skipWs cs = '"' :: rest) :
    parseVal (fuel + 1) cs = parseStrVal rest := by
  simp only [parseVal, h]
  rfl

theorem parseVal_arr_branch (fuel : Nat) (cs rest : List Char)
    (h : skipWs cs = '[' :: rest) :
    parseVal (fuel + 1) cs = parseArrBody (parseItems fuel) (skipWs rest) := by
  simp only [parseVal, h]
  rfl

theorem parseVal_obj_branch (fuel : Nat) (cs rest : List Char)
    (h : skipWs cs = '\x7b' :: rest) :
    parseVal (fuel + 1) cs = parseObjBody (parseMembers fuel) (skipWs rest) := by
  simp only [parseVal, h]
  rfl

theorem parseVal_num_branch (fuel : Nat) (cs rest : List Char) (c : Char)
    (h : skipWs cs = c :: rest)
    (hn : c ≠ 'n') (ht : c ≠ 't') (hf : c ≠ 'f') (hq : c ≠ '"')
    (hb : c ≠ '[') (ho : c ≠ '\x7b') :
    parseVal (fuel + 1) cs = parseIntVal (c :: rest) := by
  simp only [parseVal, h]
  rw [if_neg hn, if_neg ht, if_neg hf, if_neg hq, if_neg hb, if_neg ho]

/-! ## Round trip: fuel bound -/

mutual

/-- Fuel needed by `parseVal` to parse a value. -/
def jsizeV : JValue → Nat
  | .null => 1
  | .bool _ => 1
  | .num _ => 1
  | .str _ => 1
  | .arr a => 1 + jsizeA a
  | .obj o => 1 + jsizeO o

def jsizeA : JArr → Nat
  | .nil => 0
  | .cons v a => 1 + jsizeV v + jsizeA a

def jsizeO : JObj → Nat
  | .nil => 0
  | .cons _ v o => 1 + jsizeV v + jsizeO o

end

theorem jsizeV_pos (v : JValue) : 1 ≤ jsizeV v := by
  cases v <;> simp [jsizeV]

mutual

theorem jsizeV_le_dump (v : JValue) (ind : Nat) : jsizeV v ≤ (dumpV v ind).length :=
  match v with
  | .null => by simp [jsizeV, dumpV]
  | .bool true => by simp [jsizeV, dumpV]
  | .bool false => by simp [jsizeV, dumpV]
  | .num i => by
    have := natToChars_head i.natAbs
    obtain ⟨c, cs, hc, -, -⟩ := this
    show jsizeV (.num i) ≤ (intToChars i).length
    unfold intToChars
    by_cases hneg : i < 0
    · rw [if_pos hneg, hc]; simp [jsizeV]
    · rw [if_neg hneg, hc]; simp [jsizeV]
  | .str s => by simp [jsizeV, dumpV, dumpStr]
  | .arr .nil => by simp [jsizeV, jsizeA, dumpV]
  | .arr (.cons v a) => by
    have h1 := jsizeV_le_dump v (ind + 2)
    have h2 := jsizeA_le_dump a (ind + 2)
    simp only [jsizeV, jsizeA, dumpV, List.length_cons, List.length_append,
      nlIndent, List.length_replicate]
    omega
  | .obj .nil => by simp [jsizeV, jsizeO, dumpV]
  | .obj (.cons k v o) => by
    have h1 := jsizeV_le_dump v (ind + 2)
    have h2 := jsizeO_le_dump o (ind + 2)
    simp only [jsizeV, jsizeO, dumpV, List.length_cons, List.length_append,
      nlIndent, List.length_replicate]
    omega

theorem jsizeA_le_dump (a : JArr) (ind : Nat) : jsizeA a ≤ (dumpItems a ind).length :=
  match a with
  | .nil => by simp [jsizeA, dumpItems]
  | .cons v a => by
    have h1 := jsizeV_le_dump v ind
    have h2 := jsizeA_le_dump a ind
    simp only [jsizeA, dumpItems, List.length_cons, List.length_append,
      nlIndent, List.length_replicate]
    omega

theorem jsizeO_le_dump (o : JObj) (ind : Nat) : jsizeO o ≤ (dumpMembers o ind).length :=
  match o with
  | .nil => by simp [jsizeO, dumpMembers]
  | .cons k v o => by
    have h1 := jsizeV_le_dump v ind
    have h2 := jsizeO_le_dump o ind
    simp only [jsizeO, dumpMembers, List.length_cons, List.length_append,
      nlIndent, List.length_replicate]
    omega

end

theorem numSafe_cons_of (c : Char) (h : ¬ (48 ≤ c.toNat ∧ c.toNat ≤ 57))
    (l : List Char) : numSafe (c :: l) := h

theorem isWsChar_false_of_range (c : Char) (h45 : 45 ≤ c.toNat) (h57 : c.toNat ≤ 57) :
    isWsChar c = false := by
  have h1 : c ≠ ' ' := char_ne_of_range c 45 57 ⟨h45, h57⟩ ' ' (by decide)
  have h2 : c ≠ '\t' := char_ne_of_range c 45 57 ⟨h45, h57⟩ '\t' (by decide)
  have h3 : c ≠ '\n' := char_ne_of_range c 45 57 ⟨h45, h57⟩ '\n' (by decide)
  have h4 : c ≠ '\r' := char_ne_of_range c 45 57 ⟨h45, h57⟩ '\r' (by decide)
  simp [isWsChar, h1, h2, h3, h4]

theorem intToChars_head (i : Int) :
    ∃ c cs, intToChars i = c :: cs ∧ 45 ≤ c.toNat ∧ c.toNat ≤ 57 := by
  unfold intToChars
  by_cases hneg : i < 0
  · rw [if_pos hneg]
    exact ⟨'-', _, rfl, by decide, by decide⟩
  · rw [if_neg hneg]
    obtain ⟨c, cs, hc, h1, h2⟩ := natToChars_head i.natAbs
    exact ⟨c, cs, hc, by omega, h2⟩

theorem parse_dump_all : ∀ fuel : Nat,
    (∀ (v : JValue) (pre : List Char), (∀ c ∈ pre, isWsChar c = true) →
      ∀ (ind : Nat) (rest : List Char), jsizeV v ≤ fuel → numSafe rest →
      parseVal fuel (pre ++ (dumpV v ind ++ rest)) = some (v, rest)) ∧
    (∀ (v : JValue) (a : JArr) (pre : List Char), (∀ c ∈ pre, isWsChar c = true) →
      ∀ (ind indc : Nat) (rest : List Char), 1 + jsizeV v + jsizeA a ≤ fuel →
      parseItems fuel
          (pre ++ (dumpV v ind ++ (dumpItems a ind ++ (nlIndent indc ++ (']' :: rest))))) =
        some (.cons v a, rest)) ∧
    (∀ (k : String) (v : JValue) (o : JObj) (ind indc : Nat) (rest : List Char),
      1 + jsizeV v + jsizeO o ≤ fuel →
      parseMembers fuel
          (dumpStr k ++ (':' :: ' ' :: (dumpV v ind ++
            (dumpMembers o ind ++ (nlIndent indc ++ ('\x7d' :: rest)))))) =
        some (.cons k v o, rest)) := by
  intro fuel
  induction fuel with
  | zero =>
    refine ⟨fun v pre hpre ind rest hsz hrest => ?_, fun v a pre hpre ind indc rest hsz => ?_,
      fun k v o ind indc rest hsz => ?_⟩
    · have := jsizeV_pos v; omega
    · omega
    · omega
  | succ f ih =>
    obtain ⟨ih1, ih2, ih3⟩ := ih
    refine ⟨fun v pre hpre ind rest hsz hrest => ?_, fun v a pre hpre ind indc rest hsz => ?_,
      fun k v o ind indc rest hsz => ?_⟩
    · -- parseVal
      cases v with
      | null =>
        have hskip : skipWs (pre ++ (dumpV .null ind ++ rest)) =
            'n' :: ('u' :: 'l' :: 'l' :: rest) := by
          rw [skipWs_allWs pre hpre]
          exact skipWs_not_ws 'n' _ (by decide)
        rw [parseVal_null_branch f _ _ hskip]
        rfl
      | bool b =>
        cases b with
        | true =>
          have hskip : skipWs (pre ++ (dumpV (.bool true) ind ++ rest)) =
              't' :: ('r' :: 'u' :: 'e' :: rest) := by
            rw [skipWs_allWs pre hpre]
            exact skipWs_not_ws 't' _ (by decide)
          rw [parseVal_true_branch f _ _ hskip]
          rfl
        | false =>
          have hskip : skipWs (pre ++ (dumpV (.bool false) ind ++ rest)) =
              'f' :: ('a' :: 'l' :: 's' :: 'e' :: rest) := by
            rw [skipWs_allWs pre hpre]
            exact skipWs_not_ws 'f' _ (by decide)
          rw [parseVal_false_branch f _ _ hskip]
          rfl
      | num i =>
        obtain ⟨c, cs, hc, h45, h57⟩ := intToChars_head i
        have hskip : skipWs (pre ++ (dumpV (.num i) ind ++ rest)) = c :: (cs ++ rest) := by
          rw [skipWs_allWs pre hpre]
          show skipWs (intToChars i ++ rest) = c :: (cs ++ rest)
          rw [hc, List.cons_append]
          exact skipWs_not_ws c _ (isWsChar_false_of_range c h45 h57)
        rw [parseVal_num_branch f _ _ c hskip
          (char_ne_of_range c 45 57 ⟨h45, h57⟩ 'n' (by decide))
          (char_ne_of_range c 45 57 ⟨h45, h57⟩ 't' (by decide))
          (char_ne_of_range c 45 57 ⟨h45, h57⟩ 'f' (by decide))
          (char_ne_of_range c 45 57 ⟨h45, h57⟩ '"' (by decide))
          (char_ne_of_range c 45 57 ⟨h45, h57⟩ '[' (by decide))
          (char_ne_of_range c 45 57 ⟨h45, h57⟩ '\x7b' (by decide))]
        rw [show c :: (cs ++ rest) = intToChars i ++ rest from by rw [hc, List.cons_append]]
        exact parseIntVal_intToChars i rest hrest
      | str s =>
        have hskip : skipWs (pre ++ (dumpV (.str s) ind ++ rest)) =
            '"' :: (escChars s.data ++ '"' :: rest) := by
          rw [skipWs_allWs pre hpre]
          show skipWs ('"' :: ((escChars s.data ++ ['"']) ++ rest)) = _
          rw [skipWs_not_ws '"' _ (by decide), List.append_assoc]
          simp only [List.singleton_append]
        rw [parseVal_str_branch f _ _ hskip]
        exact parseStrVal_escChars s rest
      | arr a =>
        cases a with
        | nil =>
          have hskip : skipWs (pre ++ (dumpV (.arr .nil) ind ++ rest)) =
              '[' :: (']' :: rest) := by
            rw [skipWs_allWs pre hpre]
            exact skipWs_not_ws '[' _ (by decide)
          rw [parseVal_arr_branch f _ _ hskip]
          rw [skipWs_not_ws ']' rest (by decide)]
          rfl
        | cons v1 a1 =>
          have hskip : skipWs (pre ++ (dumpV (.arr (.cons v1 a1)) ind ++ rest)) =
              '[' :: (nlIndent (ind + 2) ++ (dumpV v1 (ind + 2) ++
                (dumpItems a1 (ind + 2) ++ (nlIndent ind ++ (']' :: rest))))) := by
            rw [skipWs_allWs pre hpre]
            simp only [dumpV, List.cons_append, List.append_assoc, List.singleton_append]
            exact skipWs_not_ws '[' _ (by decide)
          rw [parseVal_arr_branch f _ _ hskip]
          rw [skipWs_allWs (nlIndent (ind + 2)) (nlIndent_allWs _)]
          obtain ⟨c, cs, hcv, hws, hnb, -⟩ := dumpV_head v1 (ind + 2)
          have hitems := ih2 v1 a1 [] (by simp) (ind + 2) ind rest
            (by simp only [jsizeV, jsizeA] at hsz; omega)
          simp only [List.nil_append] at hitems
          rw [hcv, List.cons_append] at hitems
          rw [hcv, List.cons_append, skipWs_not_ws c _ hws]
          simp only [parseArrBody, hitems]
          rw [if_neg hnb]
      | obj o =>
        cases o with
        | nil =>
          have hskip : skipWs (pre ++ (dumpV (.obj .nil) ind ++ rest)) =
              '\x7b' :: ('\x7d' :: rest) := by
            rw [skipWs_allWs pre hpre]
            exact skipWs_not_ws '\x7b' _ (by decide)
          rw [parseVal_obj_branch f _ _ hskip]
          rw [skipWs_not_ws '\x7d' rest (by decide)]
          rfl
        | cons k v1 o1 =>
          have hskip : skipWs (pre ++ (dumpV (.obj (.cons k v1 o1)) ind ++ rest)) =
              '\x7b' :: (nlIndent (ind + 2) ++ (dumpStr k ++ (':' :: ' ' ::
                (dumpV v1 (ind + 2) ++ (dumpMembers o1 (ind + 2) ++
                  (nlIndent ind ++ ('\x7d' :: rest))))))) := by
            rw [skipWs_allWs pre hpre]
            simp only [dumpV, List.cons_append, List.append_assoc, List.singleton_append]
            exact skipWs_not_ws '\x7b' _ (by decide)
          rw [parseVal_obj_branch f _ _ hskip]
          rw [skipWs_allWs (nlIndent (ind + 2)) (nlIndent_allWs _)]
          have hmem := ih3 k v1 o1 (ind + 2) ind rest
            (by simp only [jsizeV, jsizeO] at hsz; omega)
          have hds : dumpStr k ++ (':' :: ' ' :: (dumpV v1 (ind + 2) ++
              (dumpMembers o1 (ind + 2) ++ (nlIndent ind ++ ('\x7d' :: rest))))) =
              '"' :: (escChars k.data ++ ('"' :: ':' :: ' ' :: (dumpV v1 (ind + 2) ++
                (dumpMembers o1 (ind + 2) ++ (nlIndent ind ++ ('\x7d' :: rest)))))) := by
            simp only [dumpStr, List.cons_append, List.append_assoc, List.singleton_append,
              List.nil_append]
          rw [hds] at hmem ⊢
          rw [skipWs_not_ws '"' _ (by decide)]
          simp only [parseObjBody, hmem]
          rw [if_neg (by decide : ¬('"' : Char) = '\x7d')]
    · -- parseItems
      have hns : numSafe (dumpItems a ind ++ (nlIndent indc ++ (']' :: rest))) := by
        cases a with
        | nil => exact numSafe_cons_of '\n' (by decide) _
        | cons v2 a2 => exact numSafe_cons_of ',' (by decide) _
      have hval := ih1 v pre hpre ind (dumpItems a ind ++ (nlIndent indc ++ (']' :: rest)))
        (by omega) hns
      simp only [parseItems, hval]
      cases a with
      | nil =>
        have hsw : skipWs (dumpItems .nil ind ++ (nlIndent indc ++ (']' :: rest))) =
            ']' :: rest := by
          show skipWs (nlIndent indc ++ (']' :: rest)) = ']' :: rest
          rw [skipWs_allWs (nlIndent indc) (nlIndent_allWs _)]
          exact skipWs_not_ws ']' _ (by decide)
        simp only [hsw]
        rfl
      | cons v2 a2 =>
        have heq : dumpItems (.cons v2 a2) ind ++ (nlIndent indc ++ (']' :: rest)) =
            ',' :: (nlIndent ind ++ (dumpV v2 ind ++ (dumpItems a2 ind ++
              (nlIndent indc ++ (']' :: rest))))) := by
          simp only [dumpItems, List.cons_append, List.append_assoc]
        have hitems := ih2 v2 a2 (nlIndent ind) (nlIndent_allWs _) ind indc rest
          (by simp only [jsizeA] at hsz; have := jsizeV_pos v; omega)
        have hsw : skipWs (dumpItems (.cons v2 a2) ind ++ (nlIndent indc ++ (']' :: rest))) =
            ',' :: (nlIndent ind ++ (dumpV v2 ind ++ (dumpItems a2 ind ++
              (nlIndent indc ++ (']' :: rest))))) := by
          rw [heq]
          exact skipWs_not_ws ',' _ (by decide)
        simp only [hsw, hitems]
        rfl
    · -- parseMembers
      have hds : dumpStr k ++ (':' :: ' ' :: (dumpV v ind ++ (dumpMembers o ind ++
          (nlIndent indc ++ ('\x7d' :: rest))))) =
          '"' :: (escChars k.data ++ ('"' :: ':' :: ' ' :: (dumpV v ind ++
            (dumpMembers o ind ++ (nlIndent indc ++ ('\x7d' :: rest)))))) := by
        simp only [dumpStr, List.cons_append, List.append_assoc, List.singleton_append,
          List.nil_append]
      rw [hds]
      simp only [parseMembers]
      have hb : k.data.length + 1 ≤ (escChars k.data ++ ('"' :: ':' :: ' ' ::
          (dumpV v ind ++ (dumpMembers o ind ++ (nlIndent indc ++
            ('\x7d' :: rest)))))).length + 1 := by
        have := escChars_length_ge k.data
        simp only [List.length_append]
        omega
      have hkey := parseStrChars_escChars k.data _ hb (':' :: ' ' :: (dumpV v ind ++
        (dumpMembers o ind ++ (nlIndent indc ++ ('\x7d' :: rest)))))
      simp only [hkey]
      have hsw1 : skipWs (':' :: ' ' :: (dumpV v ind ++ (dumpMembers o ind ++
          (nlIndent indc ++ ('\x7d' :: rest))))) =
          ':' :: (' ' :: (dumpV v ind ++ (dumpMembers o ind ++
            (nlIndent indc ++ ('\x7d' :: rest))))) :=
        skipWs_not_ws ':' _ (by decide)
      simp only [hsw1]
      have hns : numSafe (dumpMembers o ind ++ (nlIndent indc ++ ('\x7d' :: rest))) := by
        cases o with
        | nil => exact numSafe_cons_of '\n' (by decide) _
        | cons k2 v2 o2 => exact numSafe_cons_of ',' (by decide) _
      have hval := ih1 v [' '] (by decide) ind
        (dumpMembers o ind ++ (nlIndent indc ++ ('\x7d' :: rest))) (by omega) hns
      simp only [List.singleton_append] at hval
      simp only [hval]
      cases o with
      | nil =>
        have hsw2 : skipWs (dumpMembers .nil ind ++ (nlIndent indc ++ ('\x7d' :: rest))) =
            '\x7d' :: rest := by
          show skipWs (nlIndent indc ++ ('\x7d' :: rest)) = '\x7d' :: rest
          rw [skipWs_allWs (nlIndent indc) (nlIndent_allWs _)]
          exact skipWs_not_ws '\x7d' _ (by decide)
        simp only [hsw2]
        rfl
      | cons k2 v2 o2 =>
        have heq2 : dumpMembers (.cons k2 v2 o2) ind ++ (nlIndent indc ++ ('\x7d' :: rest)) =
            ',' :: (nlIndent ind ++ (dumpStr k2 ++ (':' :: ' ' :: (dumpV v2 ind ++
              (dumpMembers o2 ind ++ (nlIndent indc ++ ('\x7d' :: rest))))))) := by
          simp only [dumpMembers, List.cons_append, List.append_assoc]
        have hsw2 : skipWs (dumpMembers (.cons k2 v2 o2) ind ++
            (nlIndent indc ++ ('\x7d' :: rest))) =
            ',' :: (nlIndent ind ++ (dumpStr k2 ++ (':' :: ' ' :: (dumpV v2 ind ++
              (dumpMembers o2 ind ++ (nlIndent indc ++ ('\x7d' :: rest))))))) := by
          rw [heq2]
          exact skipWs_not_ws ',' _ (by decide)
        have hsw3 : skipWs (nlIndent ind ++ (dumpStr k2 ++ (':' :: ' ' :: (dumpV v2 ind ++
            (dumpMembers o2 ind ++ (nlIndent indc ++ ('\x7d' :: rest))))))) =
            dumpStr k2 ++ (':' :: ' ' :: (dumpV v2 ind ++ (dumpMembers o2 ind ++
              (nlIndent indc ++ ('\x7d' :: rest))))) := by
          rw [skipWs_allWs (nlIndent ind) (nlIndent_allWs _)]
          exact skipWs_not_ws '"' _ (by decide)
        have hmem := ih3 k2 v2 o2 ind indc rest
          (by simp only [jsizeO] at hsz; have := jsizeV_pos v; omega)
        simp only [hsw2, hsw3, hmem]
        rfl

/-- `json.loads` inverts `json.dump(..., indent=2)` exactly, for every JSON
value. -/
theorem parseJson_dumpV (v : JValue) : parseJson (String.mk (dumpV v 0)) = some v := by
  unfold parseJson
  have hdata : (String.mk (dumpV v 0)).data = dumpV v 0 := rfl
  rw [hdata]
  have h1 := (parse_dump_all ((dumpV v 0).length + 1)).1 v [] (by simp) 0 []
    (le_trans (jsizeV_le_dump v 0) (by omega)) True.intro
  simp only [List.nil_append, List.append_nil] at h1
  simp only [h1]
  rfl

/-- C7: Round-trip — for every configuration and every set of per-region
fetch results with which `main` completes successfully, parsing the
`data.json` document it writes (`json.loads` on the `json.dump` output)
yields exactly the JSON structure of the in-memory `RunOutput` that was
serialized: the same region ordering, the same observations per region,
and the same field values, including the `last_updated` timestamp. -/
theorem C7_data_json_round_trip (env_api_key : Option String) (configText : String)
    (http : HttpRequest → HttpResponse) (now : String) (out : RunOutput)
    (hrun : Scraper.main env_api_key configText http now = .ok out) :
    parseJson (dataJsonText out) = some (runOutputToJson out) :=
  parseJson_dumpV (runOutputToJson out)

/-- Witness for C7 at a concrete run: an empty region list, so `main`
completes with a `RunOutput` whose serialized form is parsed back. -/
theorem C7_data_json_round_trip_witness :
    parseJson (dataJsonText ⟨"ts", .obj (.cons "regions" (.arr .nil) .nil), []⟩) =
      some (runOutputToJson ⟨"ts", .obj (.cons "regions" (.arr .nil) .nil), []⟩) :=
  C7_data_json_round_trip (some "k") "\x7b\"regions\": []\x7d" witHttpOk "ts"
    ⟨"ts", .obj (.cons "regions" (.arr .nil) .nil), []⟩ rfl
